import Mathlib

/-!
Verification of the chess rules engine (`useChessEngine` hook and helpers).

The definitions below are a shallow embedding of the engine's source.
Squares carry `Int` coordinates exactly as the JavaScript numbers do (offsets
may leave the board before the `isInBounds` test); the board is a total map
from squares to optional pieces, read through `boardGet`, which yields `none`
off the board just as the source only indexes inside the guarded bounds.
The source's unbounded `while` loops over at most eight board cells are
rendered with an explicit fuel of 8, which the in-board calls never exhaust.
-/

set_option maxHeartbeats 1000000

inductive PieceType
  | king | queen | rook | bishop | knight | pawn
deriving DecidableEq, Repr

inductive PieceColor
  | white | black
deriving DecidableEq, Repr

inductive GameStatus
  | playing | check | checkmate | stalemate | draw
deriving DecidableEq, Repr

inductive CastlingSide
  | kingside | queenside
deriving DecidableEq, Repr

/-- A chess piece: `hasMoved` is the source's optional boolean, where a
missing field is falsy, hence a plain `Bool`. -/
structure ChessPiece where
  type : PieceType
  color : PieceColor
  hasMoved : Bool
deriving DecidableEq, Repr

/-- A board coordinate; `row`/`col` are JavaScript numbers, so `Int`. -/
structure ChessSquare where
  row : Int
  col : Int
deriving DecidableEq, Repr

/-- The 8x8 grid of optional pieces, as a map from coordinates to contents. -/
def Board : Type := ChessSquare → Option ChessPiece

/-- `currentPlayer === 'white' ? 'black' : 'white'`, as used throughout. -/
def opponentOf (c : PieceColor) : PieceColor :=
  if c = PieceColor.white then PieceColor.black else PieceColor.white

/-- `isInBounds`: a square is valid iff 0 ≤ row < 8 and 0 ≤ col < 8. -/
def isInBounds (square : ChessSquare) : Bool :=
  decide (0 ≤ square.row ∧ square.row < 8 ∧ 0 ≤ square.col ∧ square.col < 8)

/-- Reading `board[row][col]`: the source only indexes in bounds, and an
in-bounds read of an empty cell is `null`; off the board this is `none`. -/
def boardGet (board : Board) (sq : ChessSquare) : Option ChessPiece :=
  if isInBounds sq then board sq else none

/-- Writing `board[row][col] = p` (the engine copies the grid first, so the
update is functional). -/
def boardSet (board : Board) (sq : ChessSquare) (p : Option ChessPiece) : Board :=
  fun s => if s = sq then p else board s

/-- `['rook','knight','bishop','queen','king','bishop','knight','rook']`. -/
def pieceOrder : List PieceType :=
  [PieceType.rook, PieceType.knight, PieceType.bishop, PieceType.queen,
   PieceType.king, PieceType.bishop, PieceType.knight, PieceType.rook]

/-- `createInitialBoard`: back ranks from `pieceOrder`, pawns on rows 1 and 6,
black on top (rows 0-1), white at the bottom (rows 6-7). -/
def createInitialBoard : Board := fun sq =>
  if 0 ≤ sq.col ∧ sq.col < 8 then
    let t := pieceOrder.getD sq.col.toNat PieceType.rook
    if sq.row = 0 then some ⟨t, PieceColor.black, false⟩
    else if sq.row = 1 then some ⟨PieceType.pawn, PieceColor.black, false⟩
    else if sq.row = 6 then some ⟨PieceType.pawn, PieceColor.white, false⟩
    else if sq.row = 7 then some ⟨t, PieceColor.white, false⟩
    else none
  else none

/-- A `ChessMove` record; the source's `notation` string field is named `san`
here, and the optional fields are `Option`s / plain `Bool`s. -/
structure ChessMove where
  fromSq : ChessSquare
  toSq : ChessSquare
  piece : ChessPiece
  capturedPiece : Option ChessPiece
  isCapture : Bool
  isCheck : Bool
  isCheckmate : Bool
  san : String
  castling : Option CastlingSide
  enPassant : Bool
  promotion : Option PieceType
deriving DecidableEq, Repr

/-- The row-major enumeration of the 64 board cells visited by every
`for (row...) for (col...)` scan in the source (cell `i` is row `i / 8`,
column `i % 8`, so the order is exactly the nested-loop order). -/
def allSquares : List ChessSquare :=
  (List.range 64).map (fun i => ⟨((i / 8 : Nat) : Int), ((i % 8 : Nat) : Int)⟩)

/-- The direction pair `(to - from) / |to - from|` (0 on an equal coordinate)
computed at the top of `isPathClear`. -/
def pathDir (a b : Int) : Int :=
  if b = a then 0 else (b - a) / ((b - a).natAbs : Int)

/-- The body of `isPathClear`'s `while (current != to)` loop.  The engine only
walks aligned in-board segments, which span at most seven cells; fuel 8 is
never exhausted on those calls. -/
def pathClearAux (board : Board) (toSq : ChessSquare) (rowDir colDir : Int) :
    Nat → ChessSquare → Bool
  | 0, _ => true
  | fuel + 1, current =>
    if current = toSq then true
    else if (boardGet board current).isSome then false
    else pathClearAux board toSq rowDir colDir fuel
      ⟨current.row + rowDir, current.col + colDir⟩

/-- `isPathClear`: every square strictly between `fromSq` and `toSq` is empty. -/
def isPathClear (board : Board) (fromSq toSq : ChessSquare) : Bool :=
  let rowDir := pathDir fromSq.row toSq.row
  let colDir := pathDir fromSq.col toSq.col
  pathClearAux board toSq rowDir colDir 8 ⟨fromSq.row + rowDir, fromSq.col + colDir⟩

/-- `canPieceAttackSquare`: per-type pseudo-legal attack patterns.  The source
non-null-asserts the attacker; it is only invoked on occupied squares, and an
empty origin yields `false` here. -/
def canPieceAttackSquare (board : Board) (fromSq toSq : ChessSquare) : Bool :=
  match boardGet board fromSq with
  | none => false
  | some piece =>
    match piece.type with
    | PieceType.pawn =>
      let direction : Int := if piece.color = PieceColor.white then -1 else 1
      decide (toSq.row = fromSq.row + direction ∧ (toSq.col - fromSq.col).natAbs = 1)
    | PieceType.rook =>
      decide (fromSq.row = toSq.row ∨ fromSq.col = toSq.col) &&
        isPathClear board fromSq toSq
    | PieceType.knight =>
      let rowDiff := (fromSq.row - toSq.row).natAbs
      let colDiff := (fromSq.col - toSq.col).natAbs
      decide ((rowDiff = 2 ∧ colDiff = 1) ∨ (rowDiff = 1 ∧ colDiff = 2))
    | PieceType.bishop =>
      decide ((fromSq.row - toSq.row).natAbs = (fromSq.col - toSq.col).natAbs) &&
        isPathClear board fromSq toSq
    | PieceType.queen =>
      decide ((fromSq.row = toSq.row ∨ fromSq.col = toSq.col) ∨
        (fromSq.row - toSq.row).natAbs = (fromSq.col - toSq.col).natAbs) &&
        isPathClear board fromSq toSq
    | PieceType.king =>
      decide ((fromSq.row - toSq.row).natAbs ≤ 1 ∧ (fromSq.col - toSq.col).natAbs ≤ 1)

/-- `isSquareUnderAttack`: scan all 64 cells for a piece of `attackingColor`
that can attack `square`. -/
def isSquareUnderAttack (board : Board) (square : ChessSquare)
    (attackingColor : PieceColor) : Bool :=
  allSquares.any (fun s =>
    match boardGet board s with
    | some piece =>
      decide (piece.color = attackingColor) && canPieceAttackSquare board s square
    | none => false)

/-- The king-locating test of `isKingInCheck`'s scan. -/
def isKingCell (board : Board) (kingColor : PieceColor) (sq : ChessSquare) : Bool :=
  match boardGet board sq with
  | some piece => decide (piece.type = PieceType.king ∧ piece.color = kingColor)
  | none => false

/-- The double loop locating the king: first matching cell in row-major order. -/
def findKing (board : Board) (kingColor : PieceColor) : Option ChessSquare :=
  allSquares.find? (isKingCell board kingColor)

/-- `isKingInCheck`: locate the king (false if absent), then ask whether the
opposing color attacks its square. -/
def isKingInCheck (board : Board) (kingColor : PieceColor) : Bool :=
  match findKing board kingColor with
  | none => false
  | some kingPosition => isSquareUnderAttack board kingPosition (opponentOf kingColor)

/-- `getPawnMoves`: forward one, forward two from the start row, the two
diagonal captures, then the en passant branch, in the source's push order. -/
def getPawnMoves (board : Board) (fromSq : ChessSquare)
    (enPassantTarget : Option ChessSquare) : List ChessSquare :=
  match boardGet board fromSq with
  | none => []
  | some piece =>
    let direction : Int := if piece.color = PieceColor.white then -1 else 1
    let startRow : Int := if piece.color = PieceColor.white then 6 else 1
    let oneForward : ChessSquare := ⟨fromSq.row + direction, fromSq.col⟩
    let forwardMoves : List ChessSquare :=
      if isInBounds oneForward ∧ boardGet board oneForward = none then
        let twoForward : ChessSquare := ⟨fromSq.row + 2 * direction, fromSq.col⟩
        if fromSq.row = startRow ∧ isInBounds twoForward ∧
            boardGet board twoForward = none then
          [oneForward, twoForward]
        else [oneForward]
      else []
    let captureMoves : List ChessSquare :=
      [(-1 : Int), 1].filterMap (fun colOffset =>
        let captureSquare : ChessSquare := ⟨fromSq.row + direction, fromSq.col + colOffset⟩
        if isInBounds captureSquare then
          match boardGet board captureSquare with
          | some target =>
            if target.color ≠ piece.color then some captureSquare else none
          | none => none
        else none)
    let enPassantMoves : List ChessSquare :=
      match enPassantTarget with
      | some target =>
        if (fromSq.col - target.col).natAbs = 1 ∧ fromSq.row = target.row + direction then
          [⟨target.row, target.col⟩]
        else []
      | none => []
    forwardMoves ++ captureMoves ++ enPassantMoves

/-- One sliding ray of `getRookMoves`/`getBishopMoves`: empty cells are
collected, the first occupied cell is kept iff it is an enemy, then the ray
stops.  A ray visits at most seven further cells, so fuel 8 suffices. -/
def slideDir (board : Board) (pieceColor : PieceColor) (dir : ChessSquare) :
    Nat → ChessSquare → List ChessSquare
  | 0, _ => []
  | fuel + 1, current =>
    if isInBounds current then
      match boardGet board current with
      | none =>
        current :: slideDir board pieceColor dir fuel
          ⟨current.row + dir.row, current.col + dir.col⟩
      | some target =>
        if target.color ≠ pieceColor then [current] else []
    else []

def rookDirections : List ChessSquare := [⟨0, 1⟩, ⟨0, -1⟩, ⟨1, 0⟩, ⟨-1, 0⟩]

def bishopDirections : List ChessSquare := [⟨1, 1⟩, ⟨1, -1⟩, ⟨-1, 1⟩, ⟨-1, -1⟩]

/-- `getRookMoves`: the four straight rays in source order. -/
def getRookMoves (board : Board) (fromSq : ChessSquare) : List ChessSquare :=
  match boardGet board fromSq with
  | none => []
  | some piece =>
    rookDirections.flatMap (fun dir =>
      slideDir board piece.color dir 8 ⟨fromSq.row + dir.row, fromSq.col + dir.col⟩)

/-- `getBishopMoves`: the four diagonal rays in source order. -/
def getBishopMoves (board : Board) (fromSq : ChessSquare) : List ChessSquare :=
  match boardGet board fromSq with
  | none => []
  | some piece =>
    bishopDirections.flatMap (fun dir =>
      slideDir board piece.color dir 8 ⟨fromSq.row + dir.row, fromSq.col + dir.col⟩)

def knightOffsets : List ChessSquare :=
  [⟨-2, -1⟩, ⟨-2, 1⟩, ⟨-1, -2⟩, ⟨-1, 2⟩, ⟨1, -2⟩, ⟨1, 2⟩, ⟨2, -1⟩, ⟨2, 1⟩]

/-- `getKnightMoves`: the eight L-offsets, destination empty or enemy. -/
def getKnightMoves (board : Board) (fromSq : ChessSquare) : List ChessSquare :=
  match boardGet board fromSq with
  | none => []
  | some piece =>
    knightOffsets.filterMap (fun off =>
      let toSq : ChessSquare := ⟨fromSq.row + off.row, fromSq.col + off.col⟩
      if isInBounds toSq then
        match boardGet board toSq with
        | none => some toSq
        | some target => if target.color ≠ piece.color then some toSq else none
      else none)

/-- `getQueenMoves`: rook rays then bishop rays. -/
def getQueenMoves (board : Board) (fromSq : ChessSquare) : List ChessSquare :=
  getRookMoves board fromSq ++ getBishopMoves board fromSq

def kingOffsets : List ChessSquare :=
  [⟨-1, -1⟩, ⟨-1, 0⟩, ⟨-1, 1⟩, ⟨0, -1⟩, ⟨0, 1⟩, ⟨1, -1⟩, ⟨1, 0⟩, ⟨1, 1⟩]

/-- `getKingMoves`: the eight adjacent squares, then the castling pushes.
The `moveHistory` parameter is accepted (as in the source) but never read. -/
def getKingMoves (board : Board) (fromSq : ChessSquare)
    (moveHistory : List ChessMove) : List ChessSquare :=
  match boardGet board fromSq with
  | none => []
  | some piece =>
    let normalMoves : List ChessSquare :=
      kingOffsets.filterMap (fun off =>
        let toSq : ChessSquare := ⟨fromSq.row + off.row, fromSq.col + off.col⟩
        if isInBounds toSq then
          match boardGet board toSq with
          | none => some toSq
          | some target => if target.color ≠ piece.color then some toSq else none
        else none)
    let castleMoves : List ChessSquare :=
      if piece.hasMoved = false ∧ isKingInCheck board piece.color = false then
        let kingside : List ChessSquare :=
          match boardGet board ⟨fromSq.row, 7⟩ with
          | some kingSideRook =>
            if kingSideRook.type = PieceType.rook ∧ kingSideRook.hasMoved = false ∧
                boardGet board ⟨fromSq.row, 5⟩ = none ∧
                boardGet board ⟨fromSq.row, 6⟩ = none ∧
                isSquareUnderAttack board ⟨fromSq.row, 5⟩ (opponentOf piece.color) = false ∧
                isSquareUnderAttack board ⟨fromSq.row, 6⟩ (opponentOf piece.color) = false then
              [⟨fromSq.row, 6⟩]
            else []
          | none => []
        let queenside : List ChessSquare :=
          match boardGet board ⟨fromSq.row, 0⟩ with
          | some queenSideRook =>
            if queenSideRook.type = PieceType.rook ∧ queenSideRook.hasMoved = false ∧
                boardGet board ⟨fromSq.row, 1⟩ = none ∧
                boardGet board ⟨fromSq.row, 2⟩ = none ∧
                boardGet board ⟨fromSq.row, 3⟩ = none ∧
                isSquareUnderAttack board ⟨fromSq.row, 2⟩ (opponentOf piece.color) = false ∧
                isSquareUnderAttack board ⟨fromSq.row, 3⟩ (opponentOf piece.color) = false then
              [⟨fromSq.row, 2⟩]
            else []
          | none => []
        kingside ++ queenside
      else []
    normalMoves ++ castleMoves

/-- `simulateMove`: minimal relocation (destination := piece, origin := null),
with the source's write order. -/
def simulateMove (board : Board) (fromSq toSq : ChessSquare) : Board :=
  boardSet (boardSet board toSq (boardGet board fromSq)) fromSq none

/-- `getValidMoves`: dispatch on the piece type at `fromSq` (empty or
wrong-color origins yield no moves), then drop every candidate whose minimal
simulation leaves the mover's own king in check. -/
def getValidMoves (board : Board) (fromSq : ChessSquare) (currentPlayer : PieceColor)
    (enPassantTarget : Option ChessSquare) (moveHistory : List ChessMove) :
    List ChessSquare :=
  match boardGet board fromSq with
  | none => []
  | some piece =>
    if piece.color ≠ currentPlayer then []
    else
      let moves : List ChessSquare :=
        match piece.type with
        | PieceType.pawn => getPawnMoves board fromSq enPassantTarget
        | PieceType.rook => getRookMoves board fromSq
        | PieceType.knight => getKnightMoves board fromSq
        | PieceType.bishop => getBishopMoves board fromSq
        | PieceType.queen => getQueenMoves board fromSq
        | PieceType.king => getKingMoves board fromSq moveHistory
      moves.filter (fun toSq =>
        isKingInCheck (simulateMove board fromSq toSq) currentPlayer = false)

/-- `isValidMoveAttempt`: origin occupied by the mover's piece and the
destination among its valid moves (compared coordinate-wise, as in the source). -/
def isValidMoveAttempt (board : Board) (fromSq toSq : ChessSquare)
    (currentPlayer : PieceColor) (enPassantTarget : Option ChessSquare)
    (moveHistory : List ChessMove) : Bool :=
  match boardGet board fromSq with
  | none => false
  | some piece =>
    if piece.color ≠ currentPlayer then false
    else
      (getValidMoves board fromSq currentPlayer enPassantTarget moveHistory).any
        (fun move => decide (move.row = toSq.row ∧ move.col = toSq.col))

/-- `hasValidMoves`: some piece of `playerColor` has a non-empty valid-move
list (row-major scan with early exit, hence `any`). -/
def hasValidMoves (board : Board) (playerColor : PieceColor)
    (enPassantTarget : Option ChessSquare) (moveHistory : List ChessMove) : Bool :=
  allSquares.any (fun sq =>
    match boardGet board sq with
    | some piece =>
      decide (piece.color = playerColor) &&
        decide (getValidMoves board sq playerColor enPassantTarget moveHistory ≠ [])
    | none => false)

/-- The source's piece-type strings, for `piece.type.charAt(0).toUpperCase()`. -/
def pieceTypeName : PieceType → String
  | PieceType.king => "king"
  | PieceType.queen => "queen"
  | PieceType.rook => "rook"
  | PieceType.bishop => "bishop"
  | PieceType.knight => "knight"
  | PieceType.pawn => "pawn"

/-- JavaScript's `s.charAt(0)` (empty result on an empty string). -/
def charAtZero (s : String) : String :=
  match s.data with
  | [] => ""
  | c :: _ => String.singleton c

/-- JavaScript's `s.charAt(0).toUpperCase()`. -/
def charAtZeroUpper (s : String) : String :=
  match s.data with
  | [] => ""
  | c :: _ => String.singleton c.toUpper

/-- `String.fromCharCode(97 + col) + (8 - row)`. -/
def squareName (sq : ChessSquare) : String :=
  String.singleton (Char.ofNat (97 + sq.col).toNat) ++ toString (8 - sq.row)

/-- `generateAlgebraicNotation`: early return for castling, otherwise piece
letter (first letter of the type name, uppercased; empty for pawns), capture
mark, destination, promotion and check suffixes; pawn captures are prefixed
with the origin file letter. -/
def generateAlgebraic (piece : ChessPiece) (fromSq toSq : ChessSquare)
    (isCapture isCheck isCheckmate : Bool) (castling : Option CastlingSide)
    (promotion : Option PieceType) : String :=
  match castling with
  | some side => if side = CastlingSide.kingside then "O-O" else "O-O-O"
  | none =>
    let pieceSymbol : String :=
      if piece.type = PieceType.pawn then "" else charAtZeroUpper (pieceTypeName piece.type)
    let fromSquare := squareName fromSq
    let toSquare := squareName toSq
    let captureSymbol : String := if isCapture then "x" else ""
    let checkSymbol : String := if isCheckmate then "#" else if isCheck then "+" else ""
    let promotionSymbol : String :=
      match promotion with
      | some p => "=" ++ charAtZeroUpper (pieceTypeName p)
      | none => ""
    if piece.type = PieceType.pawn ∧ isCapture then
      charAtZero fromSquare ++ captureSymbol ++ toSquare ++ promotionSymbol ++ checkSymbol
    else
      pieceSymbol ++ captureSymbol ++ toSquare ++ promotionSymbol ++ checkSymbol

/-- The engine's state: the fields of the `useChessEngine` hook. -/
structure GameState where
  board : Board
  currentPlayer : PieceColor
  selectedSquare : Option ChessSquare
  moveHistory : List ChessMove
  gameStatus : GameStatus
  enPassantTarget : Option ChessSquare

/-- The hook's initial state. -/
def initGameState : GameState :=
  ⟨createInitialBoard, PieceColor.white, none, [], GameStatus.playing, none⟩

/-- The `capturedPieces` memo: walk the history and push each recorded
`capturedPiece` onto its color's list (white first component, black second). -/
def capturedPieces (moveHistory : List ChessMove) :
    List ChessPiece × List ChessPiece :=
  moveHistory.foldl
    (fun captured move =>
      match move.capturedPiece with
      | some p =>
        if p.color = PieceColor.white then (captured.1 ++ [p], captured.2)
        else (captured.1, captured.2 ++ [p])
      | none => captured)
    ([], [])

/-- `makeMove`: apply a move. Castling is inferred from a king moving two
files (the rook is relocated; the source non-null-asserts it, and when it is
absent only the origin corner is cleared here); en passant from a pawn landing
on the target (the cell behind the destination is cleared); promotion from a
pawn reaching the last rank (always a queen).  The moved piece gets
`hasMoved`, the next en passant target and the post-move status are derived,
and the move record is appended.  The source non-null-asserts the moving
piece; an empty origin leaves the state unchanged here (callers validate). -/
def makeMove (st : GameState) (fromSq toSq : ChessSquare) : GameState :=
  match boardGet st.board fromSq with
  | none => st
  | some piece =>
    let capturedPiece := boardGet st.board toSq
    let castling : Option CastlingSide :=
      if piece.type = PieceType.king ∧ (toSq.col - fromSq.col).natAbs = 2 then
        some (if toSq.col > fromSq.col then CastlingSide.kingside else CastlingSide.queenside)
      else none
    let board1 : Board :=
      match castling with
      | none => st.board
      | some side =>
        let rookFromCol : Int := if side = CastlingSide.kingside then 7 else 0
        let rookToCol : Int := if side = CastlingSide.kingside then 5 else 3
        match boardGet st.board ⟨fromSq.row, rookFromCol⟩ with
        | some rook =>
          boardSet (boardSet st.board ⟨fromSq.row, rookToCol⟩
            (some { rook with hasMoved := true })) ⟨fromSq.row, rookFromCol⟩ none
        | none => boardSet st.board ⟨fromSq.row, rookFromCol⟩ none
    let enPassant : Bool :=
      match st.enPassantTarget with
      | some target =>
        decide (piece.type = PieceType.pawn ∧ toSq.row = target.row ∧ toSq.col = target.col)
      | none => false
    let board2 : Board :=
      if enPassant then boardSet board1 ⟨fromSq.row, toSq.col⟩ none else board1
    let promotion : Option PieceType :=
      if piece.type = PieceType.pawn ∧ (toSq.row = 0 ∨ toSq.row = 7) then
        some PieceType.queen
      else none
    let movedPiece : ChessPiece :=
      match promotion with
      | some p => { piece with type := p, hasMoved := true }
      | none => { piece with hasMoved := true }
    let board3 : Board := boardSet (boardSet board2 toSq (some movedPiece)) fromSq none
    let newEnPassantTarget : Option ChessSquare :=
      if piece.type = PieceType.pawn ∧ (toSq.row - fromSq.row).natAbs = 2 then
        some ⟨(fromSq.row + toSq.row) / 2, fromSq.col⟩
      else none
    let opponentColor := opponentOf st.currentPlayer
    let isCheck : Bool := isKingInCheck board3 opponentColor
    let isCheckmate : Bool :=
      isCheck && !(hasValidMoves board3 opponentColor newEnPassantTarget st.moveHistory)
    let isStalemate : Bool :=
      !isCheck && !(hasValidMoves board3 opponentColor newEnPassantTarget st.moveHistory)
    let move : ChessMove :=
      { fromSq := fromSq
        toSq := toSq
        piece := piece
        capturedPiece := capturedPiece
        isCapture := capturedPiece.isSome || enPassant
        isCheck := isCheck
        isCheckmate := isCheckmate
        san := generateAlgebraic piece fromSq toSq (capturedPiece.isSome || enPassant)
          isCheck isCheckmate castling promotion
        castling := castling
        enPassant := enPassant
        promotion := promotion }
    { board := board3
      currentPlayer := opponentColor
      selectedSquare := none
      moveHistory := st.moveHistory ++ [move]
      gameStatus :=
        if isCheckmate = true then GameStatus.checkmate
        else if isStalemate = true then GameStatus.stalemate
        else if isCheck = true then GameStatus.check
        else GameStatus.playing
      enPassantTarget := newEnPassantTarget }

/-- `handlePieceMove`: validate the intent; apply it and clear the selection
when valid, otherwise leave the state untouched. -/
def handlePieceMove (st : GameState) (fromSq toSq : ChessSquare) : GameState :=
  if isValidMoveAttempt st.board fromSq toSq st.currentPlayer st.enPassantTarget
      st.moveHistory then
    { makeMove st fromSq toSq with selectedSquare := none }
  else st

/-- Game states reachable from the initial position by validated moves, the
only way `makeMove` is invoked by the engine. -/
inductive Reachable : GameState → Prop
  | base : Reachable initGameState
  | step {st : GameState} {fromSq toSq : ChessSquare} : Reachable st →
      isValidMoveAttempt st.board fromSq toSq st.currentPlayer st.enPassantTarget
        st.moveHistory = true →
      Reachable (handlePieceMove st fromSq toSq)

/-- Total number of legal moves of `colour`, summed over every board square
(squares without a piece of `colour` contribute the empty list). -/
def legalMoveCount (board : Board) (colour : PieceColor)
    (enPassantTarget : Option ChessSquare) (moveHistory : List ChessMove) : Nat :=
  (allSquares.map (fun sq =>
    (getValidMoves board sq colour enPassantTarget moveHistory).length)).sum

/-- The state after 1.e4 e6 2.e5 d5 (rows count from black's back rank, so
e2-e4 is (6,4)-(4,4) and d7-d5 is (1,3)-(3,3)): white pawn on e5 = (3,4),
black's d-pawn just double-stepped, en passant target d6 = (2,3). -/
def referenceEnPassantState : GameState :=
  makeMove (makeMove (makeMove (makeMove initGameState ⟨6, 4⟩ ⟨4, 4⟩)
    ⟨1, 4⟩ ⟨2, 4⟩) ⟨4, 4⟩ ⟨3, 4⟩) ⟨1, 3⟩ ⟨3, 3⟩

/-- A board with no pieces at all (hence no king of either color). -/
def emptyBoard : Board := fun _ => none

/-- A black king on a8 = (0,0) attacked along the back rank by a white rook on
h8 = (0,7). -/
def checkDemoBoard : Board := fun sq =>
  if sq = ⟨0, 0⟩ then some ⟨PieceType.king, PieceColor.black, false⟩
  else if sq = ⟨0, 7⟩ then some ⟨PieceType.rook, PieceColor.white, false⟩
  else none

/-- A position whose en passant target (2,3) is set with an empty target
square, and a white pawn on (1,2) adjacent to it on the row the engine's
en passant branch accepts. -/
def enPassantDemoState : GameState where
  board := fun sq =>
    if sq = ⟨7, 4⟩ then some ⟨PieceType.king, PieceColor.white, false⟩
    else if sq = ⟨0, 0⟩ then some ⟨PieceType.king, PieceColor.black, false⟩
    else if sq = ⟨1, 2⟩ then some ⟨PieceType.pawn, PieceColor.white, true⟩
    else none
  currentPlayer := PieceColor.white
  selectedSquare := none
  moveHistory := []
  gameStatus := GameStatus.playing
  enPassantTarget := some ⟨2, 3⟩

/-- The en-passant-target invariant the engine maintains: a target is only
ever the square a pawn of the player who just moved passed over, so it is
empty, and so is the origin square that pawn vacated. -/
def epInv (st : GameState) : Prop :=
  match st.enPassantTarget with
  | none => True
  | some t =>
    (st.currentPlayer = PieceColor.white ∧ t.row = 2 ∧ 0 ≤ t.col ∧ t.col < 8 ∧
      boardGet st.board ⟨1, t.col⟩ = none ∧ boardGet st.board t = none) ∨
    (st.currentPlayer = PieceColor.black ∧ t.row = 5 ∧ 0 ≤ t.col ∧ t.col < 8 ∧
      boardGet st.board ⟨6, t.col⟩ = none ∧ boardGet st.board t = none)

/-- `k` is the position of the one and only king of color `c` on the board. -/
def uniqueKing (board : Board) (c : PieceColor) (k : ChessSquare) : Prop :=
  isKingCell board c k = true ∧ ∀ s ∈ allSquares, isKingCell board c s = true → s = k

/-- The state invariant backing the self-check safety argument: one king per
color, the en passant bookkeeping is consistent, the player who just moved
did not leave their own king attacked, and every piece still carrying
`hasMoved = false` stands untouched on its initial square (the engine sets
the flag on every relocation). -/
def ChessInv (st : GameState) : Prop :=
  (∃ k, uniqueKing st.board st.currentPlayer k) ∧
  (∃ k, uniqueKing st.board (opponentOf st.currentPlayer) k) ∧
  epInv st ∧
  isKingInCheck st.board (opponentOf st.currentPlayer) = false ∧
  (∀ s p, boardGet st.board s = some p → p.hasMoved = false →
    boardGet createInitialBoard s = some p)

/-! ## Helper lemmas -/

theorem mem_allSquares (sq : ChessSquare) :
    sq ∈ allSquares ↔ 0 ≤ sq.row ∧ sq.row < 8 ∧ 0 ≤ sq.col ∧ sq.col < 8 := by
  constructor
  · intro hmem
    rw [allSquares, List.mem_map] at hmem
    obtain ⟨i, hi, h⟩ := hmem
    rw [List.mem_range] at hi
    have h1 : sq.row = ((i / 8 : Nat) : Int) := by rw [← h]
    have h2 : sq.col = ((i % 8 : Nat) : Int) := by rw [← h]
    omega
  · intro h
    rw [allSquares, List.mem_map]
    refine ⟨sq.row.toNat * 8 + sq.col.toNat, List.mem_range.mpr (by omega), ?_⟩
    have h1 : (((sq.row.toNat * 8 + sq.col.toNat) / 8 : Nat) : Int) = sq.row := by omega
    have h2 : (((sq.row.toNat * 8 + sq.col.toNat) % 8 : Nat) : Int) = sq.col := by omega
    calc (⟨(((sq.row.toNat * 8 + sq.col.toNat) / 8 : Nat) : Int),
            (((sq.row.toNat * 8 + sq.col.toNat) % 8 : Nat) : Int)⟩ : ChessSquare)
        = ⟨sq.row, sq.col⟩ := by rw [h1, h2]
      _ = sq := rfl

theorem boardGet_inBounds {board : Board} {sq : ChessSquare} {p : ChessPiece}
    (h : boardGet board sq = some p) : isInBounds sq = true := by
  unfold boardGet at h
  by_cases hb : isInBounds sq = true
  · exact hb
  · simp [hb] at h

theorem isInBounds_iff (sq : ChessSquare) :
    isInBounds sq = true ↔ 0 ≤ sq.row ∧ sq.row < 8 ∧ 0 ≤ sq.col ∧ sq.col < 8 := by
  unfold isInBounds
  exact decide_eq_true_iff

theorem boardGet_mem_allSquares {board : Board} {sq : ChessSquare} {p : ChessPiece}
    (h : boardGet board sq = some p) : sq ∈ allSquares := by
  rw [mem_allSquares]
  exact (isInBounds_iff sq).mp (boardGet_inBounds h)

theorem find?_eq_some_of_unique {α : Type _} {l : List α} {p : α → Bool} {k : α}
    (hk : k ∈ l) (hpk : p k = true) (huniq : ∀ x ∈ l, p x = true → x = k) :
    l.find? p = some k := by
  induction l with
  | nil => cases hk
  | cons a t ih =>
    rcases hpa : p a with _ | _
    · have hkt : k ∈ t := by
        rcases List.mem_cons.mp hk with h | h
        · subst h
          rw [hpa] at hpk
          cases hpk
        · exact h
      rw [List.find?_cons, hpa]
      exact ih hkt (fun x hx hpx => huniq x (List.mem_cons_of_mem a hx) hpx)
    · have hak : a = k := huniq a (List.mem_cons_self a t) hpa
      subst hak
      rw [List.find?_cons, hpa]

theorem any_mem_coords (l : List ChessSquare) (t : ChessSquare) :
    (l.any (fun m => decide (m.row = t.row ∧ m.col = t.col))) = decide (t ∈ l) := by
  induction l with
  | nil => simp
  | cons a l ih =>
    simp only [List.any_cons, ih, List.mem_cons]
    by_cases h : a = t
    · subst h
      simp
    · have h1 : ¬(a.row = t.row ∧ a.col = t.col) := by
        intro hc
        apply h
        obtain ⟨ar, ac⟩ := a
        obtain ⟨tr, tc⟩ := t
        simp only [ChessSquare.mk.injEq]
        exact ⟨hc.1, hc.2⟩
      have h2 : ¬t = a := fun hh => h hh.symm
      by_cases hm : t ∈ l <;> simp [h1, h2, hm]

theorem isSquareUnderAttack_iff (board : Board) (sq : ChessSquare) (att : PieceColor) :
    isSquareUnderAttack board sq att = true ↔
      ∃ s ∈ allSquares, ∃ p, boardGet board s = some p ∧ p.color = att ∧
        canPieceAttackSquare board s sq = true := by
  unfold isSquareUnderAttack
  rw [List.any_eq_true]
  constructor
  · rintro ⟨s, hs, hpred⟩
    cases hov : boardGet board s with
    | none => rw [hov] at hpred; cases hpred
    | some p =>
      rw [hov] at hpred
      rw [Bool.and_eq_true, decide_eq_true_iff] at hpred
      exact ⟨s, hs, p, hov, hpred.1, hpred.2⟩
  · rintro ⟨s, hs, p, hov, hcol, hatt⟩
    refine ⟨s, hs, ?_⟩
    rw [hov, Bool.and_eq_true, decide_eq_true_iff]
    exact ⟨hcol, hatt⟩

theorem isKingCell_eq_true {board : Board} {c : PieceColor} {sq : ChessSquare} :
    isKingCell board c sq = true ↔
      ∃ p, boardGet board sq = some p ∧ p.type = PieceType.king ∧ p.color = c := by
  unfold isKingCell
  cases hov : boardGet board sq with
  | none => simp
  | some p => simp [decide_eq_true_iff]

theorem capturedPieces_append_none (h : List ChessMove) (mv : ChessMove)
    (hmv : mv.capturedPiece = none) :
    capturedPieces (h ++ [mv]) = capturedPieces h := by
  unfold capturedPieces
  rw [List.foldl_append]
  simp [hmv]

theorem getValidMoves_hist_irrel (board : Board) (fromSq : ChessSquare)
    (mover : PieceColor) (ep : Option ChessSquare) (h1 h2 : List ChessMove) :
    getValidMoves board fromSq mover ep h1 = getValidMoves board fromSq mover ep h2 :=
  rfl

theorem hasValidMoves_hist_irrel (board : Board) (mover : PieceColor)
    (ep : Option ChessSquare) (h1 h2 : List ChessMove) :
    hasValidMoves board mover ep h1 = hasValidMoves board mover ep h2 :=
  rfl

/-! ## Claim theorems -/

/-- C9: legal-move generation and move validation do not depend on the
move-history argument; for any two histories the results coincide (castling
eligibility is read off the `hasMoved` flags alone). -/
theorem moves_independent_of_history (board : Board) (fromSq toSq : ChessSquare)
    (mover : PieceColor) (ep : Option ChessSquare) (h1 h2 : List ChessMove) :
    getValidMoves board fromSq mover ep h1 = getValidMoves board fromSq mover ep h2 ∧
    isValidMoveAttempt board fromSq toSq mover ep h1 =
      isValidMoveAttempt board fromSq toSq mover ep h2 :=
  ⟨rfl, rfl⟩

/-- C7: every move whose castling field is set renders as exactly `O-O`
(kingside) or `O-O-O` (queenside), for all values of the check and checkmate
flags — no `+`/`#` suffix is ever appended to a castling move. -/
theorem castling_san_no_suffix (piece : ChessPiece) (fromSq toSq : ChessSquare)
    (isCapture isCheck isCheckmate : Bool) (promotion : Option PieceType)
    (side : CastlingSide) :
    generateAlgebraic piece fromSq toSq isCapture isCheck isCheckmate (some side)
      promotion =
      (if side = CastlingSide.kingside then "O-O" else "O-O-O") :=
  rfl

/-- C6 (code bug): of the three reference renderings, the pawn capture from
e4 onto d5 and kingside castling are as claimed, but the non-capturing
knight move g1-f3 renders as `Kf3` — the source uppercases the first letter
of the type name `knight` — not the claimed `Nf3`. -/
theorem reference_san_examples :
    generateAlgebraic ⟨PieceType.knight, PieceColor.white, true⟩ ⟨7, 6⟩ ⟨5, 5⟩
        false false false none none = "Kf3" ∧
    generateAlgebraic ⟨PieceType.pawn, PieceColor.white, true⟩ ⟨4, 4⟩ ⟨3, 3⟩
        true false false none none = "exd5" ∧
    generateAlgebraic ⟨PieceType.king, PieceColor.white, false⟩ ⟨7, 4⟩ ⟨7, 6⟩
        false false false (some CastlingSide.kingside) none = "O-O" := by
  refine ⟨?_, ?_, ?_⟩ <;> decide

/-- C4: in the initial position (standard setup, white to move, no en passant
target) the legal moves of white's pieces number exactly 20. -/
theorem initial_position_twenty_moves :
    legalMoveCount createInitialBoard PieceColor.white none [] = 20 := by
  decide

/-- C1 (code bug): in the exact reference scenario — after 1.e4 e6 2.e5 d5
the en passant target is d6 = (2,3) and white's pawn stands on e5 = (3,4)
with white to move — the engine offers that pawn no moves at all, so the
claimed en passant capture square d6 is absent: the pawn-move generator
requires the capturing pawn on `target.row + direction` (row 1 for white)
instead of the row the capturer actually occupies (row 3). -/
theorem enPassant_reference_line_no_target :
    referenceEnPassantState.enPassantTarget = some ⟨2, 3⟩ ∧
    boardGet referenceEnPassantState.board ⟨3, 4⟩ =
      some ⟨PieceType.pawn, PieceColor.white, true⟩ ∧
    referenceEnPassantState.currentPlayer = PieceColor.white ∧
    getValidMoves referenceEnPassantState.board ⟨3, 4⟩
      referenceEnPassantState.currentPlayer referenceEnPassantState.enPassantTarget
      referenceEnPassantState.moveHistory = [] := by
  refine ⟨?_, ?_, ?_, ?_⟩ <;> decide

/-- C5: a move attempt is rejected (boolean `false`, total function, no state
change) exactly when the origin is empty, the piece is not the current
player's, or the destination is not among the piece's valid moves. -/
theorem rejected_attempt_spec (st : GameState) (fromSq toSq : ChessSquare) :
    (isValidMoveAttempt st.board fromSq toSq st.currentPlayer st.enPassantTarget
        st.moveHistory = false ↔
      (boardGet st.board fromSq = none ∨
       (∃ p, boardGet st.board fromSq = some p ∧ p.color ≠ st.currentPlayer) ∨
       toSq ∉ getValidMoves st.board fromSq st.currentPlayer st.enPassantTarget
         st.moveHistory)) ∧
    (isValidMoveAttempt st.board fromSq toSq st.currentPlayer st.enPassantTarget
        st.moveHistory = false → handlePieceMove st fromSq toSq = st) := by
  constructor
  · unfold isValidMoveAttempt
    cases hov : boardGet st.board fromSq with
    | none => simp [hov]
    | some p =>
      by_cases hc : p.color = st.currentPlayer
      · have hne : ¬p.color ≠ st.currentPlayer := fun h => h hc
        simp only [hov, if_neg hne, any_mem_coords]
        constructor
        · intro hfalse
          exact Or.inr (Or.inr (of_decide_eq_false hfalse))
        · rintro (h | h | h)
          · cases h
          · obtain ⟨p1, hp1, hne1⟩ := h
            injection hp1 with e
            exact absurd (e ▸ hc) hne1
          · exact decide_eq_false h
      · have hne : p.color ≠ st.currentPlayer := hc
        simp only [hov, if_pos hne]
        constructor
        · intro _
          exact Or.inr (Or.inl ⟨p, rfl, hne⟩)
        · intro _
          trivial
  · intro hinvalid
    unfold handlePieceMove
    simp [hinvalid]

/-- Witness for C5: in the initial position, moving from a8 (black's rook,
not the side to move) is rejected and the state is left unchanged. -/
theorem rejected_attempt_spec_witness :
    isValidMoveAttempt initGameState.board ⟨0, 0⟩ ⟨4, 4⟩ initGameState.currentPlayer
      initGameState.enPassantTarget initGameState.moveHistory = false ∧
    handlePieceMove initGameState ⟨0, 0⟩ ⟨4, 4⟩ = initGameState :=
  ⟨by decide, (rejected_attempt_spec initGameState ⟨0, 0⟩ ⟨4, 4⟩).2 (by decide)⟩

/-- C3: after any applied move (the engine only applies moves from occupied
origins), the stored status is checkmate when the new side to move is in
check with no valid move, stalemate when not in check with no valid move,
check when in check with a valid move, and playing otherwise. -/
theorem makeMove_status_spec (st : GameState) (fromSq toSq : ChessSquare)
    (piece : ChessPiece) (h : boardGet st.board fromSq = some piece) :
    (makeMove st fromSq toSq).gameStatus =
      (if isKingInCheck (makeMove st fromSq toSq).board
            (makeMove st fromSq toSq).currentPlayer = true ∧
          hasValidMoves (makeMove st fromSq toSq).board
            (makeMove st fromSq toSq).currentPlayer
            (makeMove st fromSq toSq).enPassantTarget
            (makeMove st fromSq toSq).moveHistory = false then
        GameStatus.checkmate
      else if isKingInCheck (makeMove st fromSq toSq).board
            (makeMove st fromSq toSq).currentPlayer = false ∧
          hasValidMoves (makeMove st fromSq toSq).board
            (makeMove st fromSq toSq).currentPlayer
            (makeMove st fromSq toSq).enPassantTarget
            (makeMove st fromSq toSq).moveHistory = false then
        GameStatus.stalemate
      else if isKingInCheck (makeMove st fromSq toSq).board
            (makeMove st fromSq toSq).currentPlayer = true then
        GameStatus.check
      else GameStatus.playing) := by
  rcases hc : isKingInCheck (makeMove st fromSq toSq).board
      (makeMove st fromSq toSq).currentPlayer with _ | _ <;>
    rcases hm : hasValidMoves (makeMove st fromSq toSq).board
      (makeMove st fromSq toSq).currentPlayer
      (makeMove st fromSq toSq).enPassantTarget
      (makeMove st fromSq toSq).moveHistory with _ | _ <;>
  · simp only [hc, hm]
    simp only [makeMove, h] at hc hm ⊢
    rw [hasValidMoves_hist_irrel _ _ _ _ st.moveHistory] at hm
    rw [hc, hm]
    simp

/-- Witness for C3: the status derivation evaluated after 1.e4 from the
initial position. -/
theorem makeMove_status_spec_witness :
    (makeMove initGameState ⟨6, 4⟩ ⟨4, 4⟩).gameStatus =
      (if isKingInCheck (makeMove initGameState ⟨6, 4⟩ ⟨4, 4⟩).board
            (makeMove initGameState ⟨6, 4⟩ ⟨4, 4⟩).currentPlayer = true ∧
          hasValidMoves (makeMove initGameState ⟨6, 4⟩ ⟨4, 4⟩).board
            (makeMove initGameState ⟨6, 4⟩ ⟨4, 4⟩).currentPlayer
            (makeMove initGameState ⟨6, 4⟩ ⟨4, 4⟩).enPassantTarget
            (makeMove initGameState ⟨6, 4⟩ ⟨4, 4⟩).moveHistory = false then
        GameStatus.checkmate
      else if isKingInCheck (makeMove initGameState ⟨6, 4⟩ ⟨4, 4⟩).board
            (makeMove initGameState ⟨6, 4⟩ ⟨4, 4⟩).currentPlayer = false ∧
          hasValidMoves (makeMove initGameState ⟨6, 4⟩ ⟨4, 4⟩).board
            (makeMove initGameState ⟨6, 4⟩ ⟨4, 4⟩).currentPlayer
            (makeMove initGameState ⟨6, 4⟩ ⟨4, 4⟩).enPassantTarget
            (makeMove initGameState ⟨6, 4⟩ ⟨4, 4⟩).moveHistory = false then
        GameStatus.stalemate
      else if isKingInCheck (makeMove initGameState ⟨6, 4⟩ ⟨4, 4⟩).board
            (makeMove initGameState ⟨6, 4⟩ ⟨4, 4⟩).currentPlayer = true then
        GameStatus.check
      else GameStatus.playing) :=
  makeMove_status_spec initGameState ⟨6, 4⟩ ⟨4, 4⟩
    ⟨PieceType.pawn, PieceColor.white, false⟩ (by decide)

/-- C8: with no king of the queried color on the board the check test is
`false` (no error; the embedding is total); with exactly one king of that
color it is `true` exactly when some opposing piece's pseudo-legal attack
pattern reaches that king's square. -/
theorem kingcheck_spec (board : Board) (colour : PieceColor) :
    ((∀ sq ∈ allSquares, isKingCell board colour sq = false) →
      isKingInCheck board colour = false) ∧
    (∀ k, isKingCell board colour k = true →
      (∀ sq ∈ allSquares, isKingCell board colour sq = true → sq = k) →
      (isKingInCheck board colour = true ↔
        ∃ s ∈ allSquares, ∃ p, boardGet board s = some p ∧
          p.color = opponentOf colour ∧ canPieceAttackSquare board s k = true)) := by
  constructor
  · intro hnone
    unfold isKingInCheck findKing
    rw [List.find?_eq_none.mpr (fun x hx hpx => by rw [hnone x hx] at hpx; cases hpx)]
  · intro k hk huniq
    have hkmem : k ∈ allSquares := by
      obtain ⟨p, hp, _, _⟩ := isKingCell_eq_true.mp hk
      exact boardGet_mem_allSquares hp
    have hks : findKing board colour = some k :=
      find?_eq_some_of_unique hkmem hk huniq
    unfold isKingInCheck
    rw [hks]
    exact isSquareUnderAttack_iff board k (opponentOf colour)

/-- Witness for C8: the empty board has no white king and tests `false`; a
lone black king on a8 with a white rook on h8 has its check test equal to the
attack-pattern condition. -/
theorem kingcheck_spec_witness :
    isKingInCheck emptyBoard PieceColor.white = false ∧
    (isKingInCheck checkDemoBoard PieceColor.black = true ↔
      ∃ s ∈ allSquares, ∃ p, boardGet checkDemoBoard s = some p ∧
        p.color = opponentOf PieceColor.black ∧
        canPieceAttackSquare checkDemoBoard s ⟨0, 0⟩ = true) :=
  ⟨(kingcheck_spec emptyBoard PieceColor.white).1 (by decide),
   (kingcheck_spec checkDemoBoard PieceColor.black).2 ⟨0, 0⟩ (by decide) (by decide)⟩

/-- C10: a move applied as an en passant capture (pawn onto the set target,
which the engine's bookkeeping keeps empty) appends a record with
`enPassant = true` and `isCapture = true` but `capturedPiece = none`, so the
captured-piece tally — which only collects `capturedPiece` fields — is
unchanged by it. -/
theorem enPassant_record_spec (st : GameState) (fromSq toSq : ChessSquare)
    (piece : ChessPiece) (t : ChessSquare)
    (hp : boardGet st.board fromSq = some piece) (hpt : piece.type = PieceType.pawn)
    (het : st.enPassantTarget = some t) (hto : toSq = t)
    (hempty : boardGet st.board toSq = none) :
    ∃ mv : ChessMove,
      (makeMove st fromSq toSq).moveHistory = st.moveHistory ++ [mv] ∧
      mv.enPassant = true ∧ mv.isCapture = true ∧ mv.capturedPiece = none ∧
      capturedPieces (makeMove st fromSq toSq).moveHistory =
        capturedPieces st.moveHistory := by
  subst hto
  simp only [makeMove, hp, het, hempty, hpt]
  refine ⟨_, rfl, ?_, ?_, ?_, ?_⟩
  · simp
  · simp
  · rfl
  · exact capturedPieces_append_none _ _ rfl

/-- Witness for C10: the en passant record fields evaluated on a concrete
position with target (2,3) and a white pawn the engine's branch accepts. -/
theorem enPassant_record_spec_witness :
    ∃ mv : ChessMove,
      (makeMove enPassantDemoState ⟨1, 2⟩ ⟨2, 3⟩).moveHistory =
        enPassantDemoState.moveHistory ++ [mv] ∧
      mv.enPassant = true ∧ mv.isCapture = true ∧ mv.capturedPiece = none ∧
      capturedPieces (makeMove enPassantDemoState ⟨1, 2⟩ ⟨2, 3⟩).moveHistory =
        capturedPieces enPassantDemoState.moveHistory :=
  enPassant_record_spec enPassantDemoState ⟨1, 2⟩ ⟨2, 3⟩
    ⟨PieceType.pawn, PieceColor.white, true⟩ ⟨2, 3⟩ (by decide) rfl (by decide) rfl
    (by decide)

/- ===== Stage A: board update lemmas ===== -/

theorem boardGet_boardSet (b : Board) (q s : ChessSquare) (v : Option ChessPiece) :
    boardGet (boardSet b q v) s =
      if s = q then (if isInBounds s then v else none) else boardGet b s := by
  unfold boardGet boardSet
  by_cases h : s = q
  · subst h
    simp
  · simp [h]

theorem boardGet_boardSet_self (b : Board) (q : ChessSquare) (v : Option ChessPiece)
    (h : isInBounds q = true) : boardGet (boardSet b q v) q = v := by
  rw [boardGet_boardSet]
  simp [h]

theorem boardGet_boardSet_ne (b : Board) (q s : ChessSquare) (v : Option ChessPiece)
    (h : s ≠ q) : boardGet (boardSet b q v) s = boardGet b s := by
  rw [boardGet_boardSet]
  simp [h]

/- ===== Stage B: congruence lemmas ===== -/

theorem pathClearAux_congr (b1 b2 : Board) (toSq : ChessSquare) (dr dc : Int)
    (hocc : ∀ s, (boardGet b1 s).isSome = (boardGet b2 s).isSome) :
    ∀ (fuel : Nat) (cur : ChessSquare),
      pathClearAux b1 toSq dr dc fuel cur = pathClearAux b2 toSq dr dc fuel cur := by
  intro fuel
  induction fuel with
  | zero => intro cur; rfl
  | succ n ih =>
    intro cur
    unfold pathClearAux
    rw [hocc cur]
    by_cases h : cur = toSq
    · simp [h]
    · simp only [if_neg h]
      by_cases hv : (boardGet b2 cur).isSome = true
      · simp [hv]
      · simp only [Bool.not_eq_true] at hv
        simp [hv, ih]

theorem isPathClear_congr (b1 b2 : Board) (fromSq toSq : ChessSquare)
    (hocc : ∀ s, (boardGet b1 s).isSome = (boardGet b2 s).isSome) :
    isPathClear b1 fromSq toSq = isPathClear b2 fromSq toSq := by
  unfold isPathClear
  exact pathClearAux_congr b1 b2 toSq _ _ hocc 8 _

theorem canPieceAttackSquare_congr (b1 b2 : Board) (fromSq toSq : ChessSquare)
    (hocc : ∀ s, (boardGet b1 s).isSome = (boardGet b2 s).isSome)
    (hfrom : boardGet b1 fromSq = boardGet b2 fromSq) :
    canPieceAttackSquare b1 fromSq toSq = canPieceAttackSquare b2 fromSq toSq := by
  unfold canPieceAttackSquare
  rw [hfrom]
  cases boardGet b2 fromSq with
  | none => rfl
  | some p =>
    cases p.type <;> simp only [isPathClear_congr b1 b2 fromSq toSq hocc]

theorem any_congr {α : Type _} (l : List α) (p q : α → Bool)
    (h : ∀ x ∈ l, p x = q x) : l.any p = l.any q := by
  induction l with
  | nil => rfl
  | cons a t ih =>
    simp only [List.any_cons]
    rw [h a (List.mem_cons_self a t), ih (fun x hx => h x (List.mem_cons_of_mem a hx))]

theorem isSquareUnderAttack_congr (b1 b2 : Board) (sq : ChessSquare) (att : PieceColor)
    (hocc : ∀ s, (boardGet b1 s).isSome = (boardGet b2 s).isSome)
    (hatt : ∀ s p, (boardGet b1 s = some p → p.color = att → boardGet b2 s = some p) ∧
      (boardGet b2 s = some p → p.color = att → boardGet b1 s = some p)) :
    isSquareUnderAttack b1 sq att = isSquareUnderAttack b2 sq att := by
  unfold isSquareUnderAttack
  apply any_congr
  intro s _
  cases h1 : boardGet b1 s with
  | none =>
    cases h2 : boardGet b2 s with
    | none => rfl
    | some p2 =>
      by_cases hc2 : p2.color = att
      · have := (hatt s p2).2 h2 hc2
        rw [this] at h1
        cases h1
      · simp [hc2]
  | some p1 =>
    cases h2 : boardGet b2 s with
    | none =>
      by_cases hc1 : p1.color = att
      · have := (hatt s p1).1 h1 hc1
        rw [this] at h2
        cases h2
      · simp [hc1]
    | some p2 =>
      by_cases hc1 : p1.color = att
      · have hp12 : p2 = p1 := by
          have := (hatt s p1).1 h1 hc1
          rw [this] at h2
          injection h2 with e
          exact e.symm
        subst hp12
        simp only [hc1]
        rw [canPieceAttackSquare_congr b1 b2 s sq hocc (by rw [h1, h2])]
      · by_cases hc2 : p2.color = att
        · have := (hatt s p2).2 h2 hc2
          rw [this] at h1
          injection h1 with e
          exact absurd (e ▸ hc2) hc1
        · simp [hc1, hc2]

theorem find?_congr {α : Type _} (l : List α) (p q : α → Bool)
    (h : ∀ x ∈ l, p x = q x) : l.find? p = l.find? q := by
  induction l with
  | nil => rfl
  | cons a t ih =>
    rw [List.find?_cons, List.find?_cons, h a (List.mem_cons_self a t),
      ih (fun x hx => h x (List.mem_cons_of_mem a hx))]

theorem findKing_congr (b1 b2 : Board) (c : PieceColor)
    (hking : ∀ s, isKingCell b1 c s = isKingCell b2 c s) :
    findKing b1 c = findKing b2 c := by
  unfold findKing
  exact find?_congr _ _ _ (fun s _ => hking s)

theorem isKingInCheck_congr (b1 b2 : Board) (c : PieceColor)
    (hocc : ∀ s, (boardGet b1 s).isSome = (boardGet b2 s).isSome)
    (hatt : ∀ s p,
      (boardGet b1 s = some p → p.color = opponentOf c → boardGet b2 s = some p) ∧
      (boardGet b2 s = some p → p.color = opponentOf c → boardGet b1 s = some p))
    (hking : ∀ s, isKingCell b1 c s = isKingCell b2 c s) :
    isKingInCheck b1 c = isKingInCheck b2 c := by
  unfold isKingInCheck
  rw [findKing_congr b1 b2 c hking]
  cases findKing b2 c with
  | none => rfl
  | some k => exact isSquareUnderAttack_congr b1 b2 k (opponentOf c) hocc hatt

/- ===== Stage C: extraction lemmas ===== -/

theorem getValidMoves_mem {b : Board} {f : ChessSquare} {c : PieceColor}
    {ep : Option ChessSquare} {hist : List ChessMove} {toSq : ChessSquare}
    (h : toSq ∈ getValidMoves b f c ep hist) :
    ∃ piece, boardGet b f = some piece ∧ piece.color = c ∧
      isKingInCheck (simulateMove b f toSq) c = false ∧
      ((piece.type = PieceType.pawn ∧ toSq ∈ getPawnMoves b f ep) ∨
       (piece.type = PieceType.rook ∧ toSq ∈ getRookMoves b f) ∨
       (piece.type = PieceType.knight ∧ toSq ∈ getKnightMoves b f) ∨
       (piece.type = PieceType.bishop ∧ toSq ∈ getBishopMoves b f) ∨
       (piece.type = PieceType.queen ∧ toSq ∈ getQueenMoves b f) ∨
       (piece.type = PieceType.king ∧ toSq ∈ getKingMoves b f hist)) := by
  unfold getValidMoves at h
  cases hov : boardGet b f with
  | none =>
    rw [hov] at h
    cases h
  | some piece =>
    rw [hov] at h
    dsimp only [] at h
    by_cases hc : piece.color = c
    · rw [if_neg (not_not_intro hc)] at h
      rw [List.mem_filter] at h
      obtain ⟨hmem, hpred⟩ := h
      have hcheck : isKingInCheck (simulateMove b f toSq) c = false :=
        of_decide_eq_true hpred
      refine ⟨piece, rfl, hc, hcheck, ?_⟩
      cases hty : piece.type <;> rw [hty] at hmem <;> simp_all
    · rw [if_pos hc] at h
      cases h

theorem getPawnMoves_mem {b : Board} {f toSq : ChessSquare} {ep : Option ChessSquare}
    {piece : ChessPiece} (hov : boardGet b f = some piece)
    (h : toSq ∈ getPawnMoves b f ep) :
    (toSq = ⟨f.row + (if piece.color = PieceColor.white then -1 else 1), f.col⟩ ∧
      isInBounds toSq = true ∧ boardGet b toSq = none) ∨
    (toSq = ⟨f.row + 2 * (if piece.color = PieceColor.white then -1 else 1), f.col⟩ ∧
      f.row = (if piece.color = PieceColor.white then 6 else 1) ∧
      isInBounds toSq = true ∧
      boardGet b ⟨f.row + (if piece.color = PieceColor.white then -1 else 1), f.col⟩ = none ∧
      boardGet b toSq = none) ∨
    ((toSq = ⟨f.row + (if piece.color = PieceColor.white then -1 else 1), f.col + -1⟩ ∨
      toSq = ⟨f.row + (if piece.color = PieceColor.white then -1 else 1), f.col + 1⟩) ∧
      isInBounds toSq = true ∧ ∃ q, boardGet b toSq = some q ∧ q.color ≠ piece.color) ∨
    (∃ t, ep = some t ∧ toSq = ⟨t.row, t.col⟩ ∧ (f.col - t.col).natAbs = 1 ∧
      f.row = t.row + (if piece.color = PieceColor.white then -1 else 1)) := by
  unfold getPawnMoves at h
  rw [hov] at h
  dsimp only [] at h
  simp only [List.mem_append] at h
  rcases h with (h | h) | h
  · -- forward moves
    by_cases h1 : isInBounds ⟨f.row + (if piece.color = PieceColor.white then -1 else 1), f.col⟩ = true ∧
        boardGet b ⟨f.row + (if piece.color = PieceColor.white then -1 else 1), f.col⟩ = none
    · rw [if_pos h1] at h
      by_cases h2 : f.row = (if piece.color = PieceColor.white then (6 : Int) else 1) ∧
          isInBounds ⟨f.row + 2 * (if piece.color = PieceColor.white then -1 else 1), f.col⟩ = true ∧
          boardGet b ⟨f.row + 2 * (if piece.color = PieceColor.white then -1 else 1), f.col⟩ = none
      · rw [if_pos h2] at h
        rcases List.mem_cons.mp h with h3 | h3
        · exact Or.inl ⟨h3, h3 ▸ h1.1, h3 ▸ h1.2⟩
        · rcases List.mem_cons.mp h3 with h4 | h4
          · exact Or.inr (Or.inl ⟨h4, h2.1, h4 ▸ h2.2.1, h1.2, h4 ▸ h2.2.2⟩)
          · cases h4
      · rw [if_neg h2] at h
        rcases List.mem_cons.mp h with h3 | h3
        · exact Or.inl ⟨h3, h3 ▸ h1.1, h3 ▸ h1.2⟩
        · cases h3
    · rw [if_neg h1] at h
      cases h
  · -- capture moves
    rw [List.mem_filterMap] at h
    obtain ⟨off, hoff, hsome⟩ := h
    have hoffv : off = -1 ∨ off = 1 := by
      rcases List.mem_cons.mp hoff with h | h
      · exact Or.inl h
      · rcases List.mem_cons.mp h with h | h
        · exact Or.inr h
        · cases h
    by_cases hb : isInBounds ⟨f.row + (if piece.color = PieceColor.white then -1 else 1), f.col + off⟩ = true
    · rw [if_pos hb] at hsome
      cases hq : boardGet b ⟨f.row + (if piece.color = PieceColor.white then -1 else 1), f.col + off⟩ with
      | none =>
        rw [hq] at hsome
        dsimp only [] at hsome
        cases hsome
      | some q =>
        rw [hq] at hsome
        dsimp only [] at hsome
        by_cases hqc : q.color ≠ piece.color
        · rw [if_pos hqc] at hsome
          injection hsome with e
          refine Or.inr (Or.inr (Or.inl ⟨?_, ?_, q, ?_, hqc⟩))
          · rcases hoffv with rfl | rfl
            · exact Or.inl e.symm
            · exact Or.inr e.symm
          · rw [← e]; exact hb
          · rw [← e]; exact hq
        · rw [if_neg hqc] at hsome
          cases hsome
    · rw [if_neg hb] at hsome
      cases hsome
  · -- en passant branch
    cases hept : ep with
    | none => rw [hept] at h; cases h
    | some t =>
      rw [hept] at h
      dsimp only [] at h
      by_cases hcond : (f.col - t.col).natAbs = 1 ∧
          f.row = t.row + (if piece.color = PieceColor.white then -1 else 1)
      · rw [if_pos hcond] at h
        rcases List.mem_cons.mp h with h3 | h3
        · exact Or.inr (Or.inr (Or.inr ⟨t, rfl, h3, hcond.1, hcond.2⟩))
        · cases h3
      · rw [if_neg hcond] at h
        cases h

theorem getKnightMoves_mem {b : Board} {f toSq : ChessSquare} {piece : ChessPiece}
    (hov : boardGet b f = some piece) (h : toSq ∈ getKnightMoves b f) :
    ∃ off ∈ knightOffsets, toSq = ⟨f.row + off.row, f.col + off.col⟩ ∧
      isInBounds toSq = true ∧
      (boardGet b toSq = none ∨ ∃ q, boardGet b toSq = some q ∧ q.color ≠ piece.color) := by
  unfold getKnightMoves at h
  rw [hov] at h
  dsimp only [] at h
  rw [List.mem_filterMap] at h
  obtain ⟨off, hoff, hsome⟩ := h
  by_cases hb : isInBounds (⟨f.row + off.row, f.col + off.col⟩ : ChessSquare) = true
  · rw [if_pos hb] at hsome
    cases hq : boardGet b (⟨f.row + off.row, f.col + off.col⟩ : ChessSquare) with
    | none =>
      rw [hq] at hsome
      dsimp only [] at hsome
      injection hsome with e
      subst e
      exact ⟨off, hoff, rfl, hb, Or.inl hq⟩
    | some q =>
      rw [hq] at hsome
      dsimp only [] at hsome
      by_cases hqc : q.color ≠ piece.color
      · rw [if_pos hqc] at hsome
        injection hsome with e
        subst e
        exact ⟨off, hoff, rfl, hb, Or.inr ⟨q, hq, hqc⟩⟩
      · rw [if_neg hqc] at hsome
        cases hsome
  · rw [if_neg hb] at hsome
    cases hsome

theorem getKingMoves_mem {b : Board} {f toSq : ChessSquare} {hist : List ChessMove}
    {piece : ChessPiece} (hov : boardGet b f = some piece)
    (h : toSq ∈ getKingMoves b f hist) :
    (∃ off ∈ kingOffsets, toSq = ⟨f.row + off.row, f.col + off.col⟩ ∧
      isInBounds toSq = true ∧
      (boardGet b toSq = none ∨ ∃ q, boardGet b toSq = some q ∧ q.color ≠ piece.color)) ∨
    (piece.hasMoved = false ∧ isKingInCheck b piece.color = false ∧
      ((toSq = ⟨f.row, 6⟩ ∧ ∃ rook, boardGet b ⟨f.row, 7⟩ = some rook ∧
          rook.type = PieceType.rook ∧ rook.hasMoved = false ∧
          boardGet b ⟨f.row, 5⟩ = none ∧ boardGet b ⟨f.row, 6⟩ = none ∧
          isSquareUnderAttack b ⟨f.row, 5⟩ (opponentOf piece.color) = false ∧
          isSquareUnderAttack b ⟨f.row, 6⟩ (opponentOf piece.color) = false) ∨
       (toSq = ⟨f.row, 2⟩ ∧ ∃ rook, boardGet b ⟨f.row, 0⟩ = some rook ∧
          rook.type = PieceType.rook ∧ rook.hasMoved = false ∧
          boardGet b ⟨f.row, 1⟩ = none ∧ boardGet b ⟨f.row, 2⟩ = none ∧
          boardGet b ⟨f.row, 3⟩ = none ∧
          isSquareUnderAttack b ⟨f.row, 2⟩ (opponentOf piece.color) = false ∧
          isSquareUnderAttack b ⟨f.row, 3⟩ (opponentOf piece.color) = false))) := by
  unfold getKingMoves at h
  rw [hov] at h
  dsimp only [] at h
  rw [List.mem_append] at h
  rcases h with h | h
  · -- normal offsets
    rw [List.mem_filterMap] at h
    obtain ⟨off, hoff, hsome⟩ := h
    by_cases hb : isInBounds (⟨f.row + off.row, f.col + off.col⟩ : ChessSquare) = true
    · rw [if_pos hb] at hsome
      cases hq : boardGet b (⟨f.row + off.row, f.col + off.col⟩ : ChessSquare) with
      | none =>
        rw [hq] at hsome
        dsimp only [] at hsome
        injection hsome with e
        subst e
        exact Or.inl ⟨off, hoff, rfl, hb, Or.inl hq⟩
      | some q =>
        rw [hq] at hsome
        dsimp only [] at hsome
        by_cases hqc : q.color ≠ piece.color
        · rw [if_pos hqc] at hsome
          injection hsome with e
          subst e
          exact Or.inl ⟨off, hoff, rfl, hb, Or.inr ⟨q, hq, hqc⟩⟩
        · rw [if_neg hqc] at hsome
          cases hsome
    · rw [if_neg hb] at hsome
      cases hsome
  · -- castling pushes
    by_cases hpre : piece.hasMoved = false ∧ isKingInCheck b piece.color = false
    · rw [if_pos hpre] at h
      rw [List.mem_append] at h
      refine Or.inr ⟨hpre.1, hpre.2, ?_⟩
      rcases h with h | h
      · -- kingside
        cases hrk : boardGet b (⟨f.row, 7⟩ : ChessSquare) with
        | none =>
          rw [hrk] at h
          dsimp only [] at h
          cases h
        | some rook =>
          rw [hrk] at h
          dsimp only [] at h
          by_cases hcond : rook.type = PieceType.rook ∧ rook.hasMoved = false ∧
              boardGet b ⟨f.row, 5⟩ = none ∧ boardGet b ⟨f.row, 6⟩ = none ∧
              isSquareUnderAttack b ⟨f.row, 5⟩ (opponentOf piece.color) = false ∧
              isSquareUnderAttack b ⟨f.row, 6⟩ (opponentOf piece.color) = false
          · rw [if_pos hcond] at h
            rcases List.mem_cons.mp h with h3 | h3
            · exact Or.inl ⟨h3, rook, rfl, hcond.1, hcond.2.1, hcond.2.2.1,
                hcond.2.2.2.1, hcond.2.2.2.2.1, hcond.2.2.2.2.2⟩
            · cases h3
          · rw [if_neg hcond] at h
            cases h
      · -- queenside
        cases hrk : boardGet b (⟨f.row, 0⟩ : ChessSquare) with
        | none =>
          rw [hrk] at h
          dsimp only [] at h
          cases h
        | some rook =>
          rw [hrk] at h
          dsimp only [] at h
          by_cases hcond : rook.type = PieceType.rook ∧ rook.hasMoved = false ∧
              boardGet b ⟨f.row, 1⟩ = none ∧ boardGet b ⟨f.row, 2⟩ = none ∧
              boardGet b ⟨f.row, 3⟩ = none ∧
              isSquareUnderAttack b ⟨f.row, 2⟩ (opponentOf piece.color) = false ∧
              isSquareUnderAttack b ⟨f.row, 3⟩ (opponentOf piece.color) = false
          · rw [if_pos hcond] at h
            rcases List.mem_cons.mp h with h3 | h3
            · exact Or.inr ⟨h3, rook, rfl, hcond.1, hcond.2.1, hcond.2.2.1,
                hcond.2.2.2.1, hcond.2.2.2.2.1, hcond.2.2.2.2.2.1, hcond.2.2.2.2.2.2⟩
            · cases h3
          · rw [if_neg hcond] at h
            cases h
    · rw [if_neg hpre] at h
      cases h

theorem mem_slideDir {b : Board} {pc : PieceColor} {dir : ChessSquare} :
    ∀ (fuel : Nat) (cur toSq : ChessSquare), toSq ∈ slideDir b pc dir fuel cur →
      ∃ k : Nat, toSq = ⟨cur.row + k * dir.row, cur.col + k * dir.col⟩ ∧
        isInBounds toSq = true ∧
        (∀ j : Nat, j < k → boardGet b ⟨cur.row + j * dir.row, cur.col + j * dir.col⟩ = none) ∧
        (boardGet b toSq = none ∨ ∃ q, boardGet b toSq = some q ∧ q.color ≠ pc) := by
  intro fuel
  induction fuel with
  | zero =>
    intro cur toSq h
    cases h
  | succ n ih =>
    intro cur toSq h
    unfold slideDir at h
    by_cases hb : isInBounds cur = true
    · rw [if_pos hb] at h
      cases hv : boardGet b cur with
      | none =>
        rw [hv] at h
        dsimp only [] at h
        rcases List.mem_cons.mp h with h1 | h1
        · refine ⟨0, ?_, ?_, ?_, ?_⟩
          · rw [h1]
            simp
          · rw [h1]; exact hb
          · intro j hj; cases hj
          · rw [h1]; exact Or.inl hv
        · obtain ⟨k, hco, hbnd, hemp, hdest⟩ := ih ⟨cur.row + dir.row, cur.col + dir.col⟩ toSq h1
          dsimp only [] at hco hemp
          refine ⟨k + 1, ?_, hbnd, ?_, hdest⟩
          · rw [hco]
            simp only [ChessSquare.mk.injEq]
            constructor <;> push_cast <;> ring
          · intro j hj
            cases j with
            | zero => simpa using hv
            | succ j' =>
              have hj' : j' < k := by omega
              have hstep := hemp j' hj'
              convert hstep using 3 <;> push_cast <;> ring
      | some target =>
        rw [hv] at h
        dsimp only [] at h
        by_cases htc : target.color ≠ pc
        · rw [if_pos htc] at h
          rcases List.mem_cons.mp h with h1 | h1
          · refine ⟨0, ?_, ?_, ?_, ?_⟩
            · rw [h1]
              simp
            · rw [h1]; exact hb
            · intro j hj; cases hj
            · rw [h1]; exact Or.inr ⟨target, hv, htc⟩
          · cases h1
        · rw [if_neg htc] at h
          cases h
    · rw [if_neg hb] at h
      cases h

theorem getRookMoves_mem {b : Board} {f toSq : ChessSquare} {piece : ChessPiece}
    (hov : boardGet b f = some piece) (h : toSq ∈ getRookMoves b f) :
    ∃ dir ∈ rookDirections, ∃ k : Nat, 1 ≤ k ∧
      toSq = ⟨f.row + k * dir.row, f.col + k * dir.col⟩ ∧ isInBounds toSq = true ∧
      (∀ j : Nat, 1 ≤ j → j < k →
        boardGet b ⟨f.row + j * dir.row, f.col + j * dir.col⟩ = none) ∧
      (boardGet b toSq = none ∨ ∃ q, boardGet b toSq = some q ∧ q.color ≠ piece.color) := by
  unfold getRookMoves at h
  rw [hov] at h
  dsimp only [] at h
  rw [List.mem_flatMap] at h
  obtain ⟨dir, hdir, hmem⟩ := h
  obtain ⟨k, hco, hbnd, hemp, hdest⟩ := mem_slideDir 8 _ toSq hmem
  dsimp only [] at hco hemp
  refine ⟨dir, hdir, k + 1, by omega, ?_, hbnd, ?_, hdest⟩
  · rw [hco]
    simp only [ChessSquare.mk.injEq]
    constructor <;> push_cast <;> ring
  · intro j hj1 hjk
    obtain ⟨j', rfl⟩ : ∃ j', j = j' + 1 := ⟨j - 1, by omega⟩
    have hj' : j' < k := by omega
    have hstep := hemp j' hj'
    convert hstep using 3 <;> push_cast <;> ring

theorem getBishopMoves_mem {b : Board} {f toSq : ChessSquare} {piece : ChessPiece}
    (hov : boardGet b f = some piece) (h : toSq ∈ getBishopMoves b f) :
    ∃ dir ∈ bishopDirections, ∃ k : Nat, 1 ≤ k ∧
      toSq = ⟨f.row + k * dir.row, f.col + k * dir.col⟩ ∧ isInBounds toSq = true ∧
      (∀ j : Nat, 1 ≤ j → j < k →
        boardGet b ⟨f.row + j * dir.row, f.col + j * dir.col⟩ = none) ∧
      (boardGet b toSq = none ∨ ∃ q, boardGet b toSq = some q ∧ q.color ≠ piece.color) := by
  unfold getBishopMoves at h
  rw [hov] at h
  dsimp only [] at h
  rw [List.mem_flatMap] at h
  obtain ⟨dir, hdir, hmem⟩ := h
  obtain ⟨k, hco, hbnd, hemp, hdest⟩ := mem_slideDir 8 _ toSq hmem
  dsimp only [] at hco hemp
  refine ⟨dir, hdir, k + 1, by omega, ?_, hbnd, ?_, hdest⟩
  · rw [hco]
    simp only [ChessSquare.mk.injEq]
    constructor <;> push_cast <;> ring
  · intro j hj1 hjk
    obtain ⟨j', rfl⟩ : ∃ j', j = j' + 1 := ⟨j - 1, by omega⟩
    have hj' : j' < k := by omega
    have hstep := hemp j' hj'
    convert hstep using 3 <;> push_cast <;> ring

theorem getQueenMoves_mem {b : Board} {f toSq : ChessSquare} {piece : ChessPiece}
    (hov : boardGet b f = some piece) (h : toSq ∈ getQueenMoves b f) :
    ∃ dir, (dir ∈ rookDirections ∨ dir ∈ bishopDirections) ∧ ∃ k : Nat, 1 ≤ k ∧
      toSq = ⟨f.row + k * dir.row, f.col + k * dir.col⟩ ∧ isInBounds toSq = true ∧
      (∀ j : Nat, 1 ≤ j → j < k →
        boardGet b ⟨f.row + j * dir.row, f.col + j * dir.col⟩ = none) ∧
      (boardGet b toSq = none ∨ ∃ q, boardGet b toSq = some q ∧ q.color ≠ piece.color) := by
  unfold getQueenMoves at h
  rw [List.mem_append] at h
  rcases h with h | h
  · obtain ⟨dir, hdir, rest⟩ := getRookMoves_mem hov h
    exact ⟨dir, Or.inl hdir, rest⟩
  · obtain ⟨dir, hdir, rest⟩ := getBishopMoves_mem hov h
    exact ⟨dir, Or.inr hdir, rest⟩

/- ===== Stage D: path walk lemmas ===== -/

theorem pathDir_eq (a c : Int) :
    pathDir a c = if c = a then 0 else if a < c then 1 else -1 := by
  unfold pathDir
  by_cases hac : c = a
  · simp [hac]
  · rw [if_neg hac, if_neg hac]
    by_cases hlt : a < c
    · rw [if_pos hlt]
      have hnn : ((c - a).natAbs : Int) = c - a := by omega
      rw [hnn]
      exact Int.ediv_self (by omega)
    · rw [if_neg hlt]
      have hneg : ((c - a).natAbs : Int) = -(c - a) := by omega
      rw [hneg, Int.ediv_neg, Int.ediv_self (by omega)]

theorem pathClearAux_mono (b1 b2 : Board) (toSq : ChessSquare) (dr dc : Int) :
    ∀ (fuel : Nat) (cur : ChessSquare),
      (∀ k : Nat, k < fuel →
        (∀ j : Nat, j ≤ k → (⟨cur.row + j * dr, cur.col + j * dc⟩ : ChessSquare) ≠ toSq) →
        ((boardGet b2 ⟨cur.row + k * dr, cur.col + k * dc⟩).isSome = true →
         (boardGet b1 ⟨cur.row + k * dr, cur.col + k * dc⟩).isSome = true)) →
      pathClearAux b1 toSq dr dc fuel cur = true →
      pathClearAux b2 toSq dr dc fuel cur = true := by
  intro fuel
  induction fuel with
  | zero => intro cur _ _; rfl
  | succ n ih =>
    intro cur H h1
    unfold pathClearAux at h1 ⊢
    by_cases hcur : cur = toSq
    · simp [hcur]
    · rw [if_neg hcur] at h1 ⊢
      have H0 := H 0 (by omega) (by
        intro j hj
        have hj0 : j = 0 := by omega
        subst hj0
        simpa using hcur)
      simp only [Nat.cast_zero, zero_mul, add_zero] at H0
      have hocc1 : (boardGet b1 cur).isSome = false := by
        by_contra hcc
        simp only [Bool.not_eq_false] at hcc
        rw [if_pos hcc] at h1
        cases h1
      have hocc2 : (boardGet b2 cur).isSome = false := by
        by_contra hcc
        simp only [Bool.not_eq_false] at hcc
        have : (boardGet b1 cur).isSome = true := by
          apply H0
          convert hcc using 3 <;> simp
        rw [this] at hocc1
        cases hocc1
      rw [hocc1] at h1
      rw [hocc2]
      simp only [Bool.false_eq_true, if_neg] at h1 ⊢
      simp only [if_false] at h1 ⊢
      apply ih
      · intro k hk guard'
        dsimp only [] at guard' ⊢
        have hsq : ∀ (j : Nat),
            (⟨cur.row + dr + (j : Int) * dr, cur.col + dc + (j : Int) * dc⟩ : ChessSquare) =
            ⟨cur.row + ((j + 1 : Nat) : Int) * dr, cur.col + ((j + 1 : Nat) : Int) * dc⟩ := by
          intro j
          simp only [ChessSquare.mk.injEq]
          constructor <;> push_cast <;> ring
        rw [hsq k]
        apply H (k + 1) (by omega)
        intro j hj
        cases j with
        | zero => simpa using hcur
        | succ j' =>
          have hj' : j' ≤ k := by omega
          have := guard' j' hj'
          rw [hsq j'] at this
          exact this
      · exact h1

theorem pathClearAux_of_empties (b : Board) (dr dc : Int) :
    ∀ (fuel m : Nat) (cur toSq : ChessSquare), m < fuel →
      toSq = ⟨cur.row + m * dr, cur.col + m * dc⟩ →
      (∀ j : Nat, j < m → boardGet b ⟨cur.row + j * dr, cur.col + j * dc⟩ = none) →
      pathClearAux b toSq dr dc fuel cur = true := by
  intro fuel
  induction fuel with
  | zero =>
    intro m cur toSq hm
    intro _ _
    exact absurd hm (by omega)
  | succ n ih =>
    intro m cur toSq hm hco hemp
    unfold pathClearAux
    by_cases hcur : cur = toSq
    · simp [hcur]
    · rw [if_neg hcur]
      have hm0 : m ≠ 0 := by
        intro h0
        subst h0
        apply hcur
        rw [hco]
        simp
      obtain ⟨m', rfl⟩ : ∃ m', m = m' + 1 := ⟨m - 1, by omega⟩
      have h0 : boardGet b cur = none := by
        have := hemp 0 (by omega)
        simpa using this
      rw [h0]
      simp only [Option.isSome_none, Bool.false_eq_true, if_false]
      apply ih m' ⟨cur.row + dr, cur.col + dc⟩ toSq (by omega)
      · dsimp only []
        rw [hco]
        simp only [ChessSquare.mk.injEq]
        constructor <;> push_cast <;> ring
      · intro j hj
        dsimp only []
        have := hemp (j + 1) (by omega)
        convert this using 3 <;> push_cast <;> ring

theorem isPathClear_of_walk (b : Board) (f toSq : ChessSquare) (dir : ChessSquare)
    (hdir : dir ∈ rookDirections ∨ dir ∈ bishopDirections)
    (k : Nat) (hk1 : 1 ≤ k) (hk7 : k ≤ 7)
    (hco : toSq = ⟨f.row + k * dir.row, f.col + k * dir.col⟩)
    (hemp : ∀ j : Nat, 1 ≤ j → j < k →
      boardGet b ⟨f.row + j * dir.row, f.col + j * dir.col⟩ = none) :
    isPathClear b f toSq = true := by
  have hrow : pathDir f.row toSq.row = dir.row := by
    rw [hco]
    dsimp only []
    rcases hdir with h | h <;> fin_cases h <;> dsimp only [] <;>
      rw [pathDir_eq] <;> split_ifs <;> omega
  have hcol : pathDir f.col toSq.col = dir.col := by
    rw [hco]
    dsimp only []
    rcases hdir with h | h <;> fin_cases h <;> dsimp only [] <;>
      rw [pathDir_eq] <;> split_ifs <;> omega
  unfold isPathClear
  rw [hrow, hcol]
  obtain ⟨k', rfl⟩ : ∃ k', k = k' + 1 := ⟨k - 1, by omega⟩
  apply pathClearAux_of_empties b dir.row dir.col 8 k' ⟨f.row + dir.row, f.col + dir.col⟩
    toSq (by omega)
  · dsimp only []
    rw [hco]
    simp only [ChessSquare.mk.injEq]
    constructor <;> push_cast <;> ring
  · intro j hj
    dsimp only []
    have := hemp (j + 1) (by omega) (by omega)
    convert this using 3 <;> push_cast <;> ring

/- ===== Stage E: a generated capture follows the attack pattern ===== -/

theorem opponentOf_opponentOf (c : PieceColor) : opponentOf (opponentOf c) = c := by
  cases c <;> rfl

theorem opponentOf_ne (c : PieceColor) : opponentOf c ≠ c := by
  cases c <;> simp [opponentOf]

theorem capture_attack {b : Board} {f toSq : ChessSquare} {c : PieceColor}
    {ep : Option ChessSquare} {hist : List ChessMove} {q : ChessPiece}
    (hmem : toSq ∈ getValidMoves b f c ep hist)
    (hq : boardGet b toSq = some q)
    (hept : ∀ t, ep = some t → boardGet b t = none) :
    canPieceAttackSquare b f toSq = true := by
  obtain ⟨piece, hov, hcol, _, hdisp⟩ := getValidMoves_mem hmem
  have hfb := (isInBounds_iff f).mp (boardGet_inBounds hov)
  rcases hdisp with ⟨hty, hp⟩ | ⟨hty, hp⟩ | ⟨hty, hp⟩ | ⟨hty, hp⟩ | ⟨hty, hp⟩ | ⟨hty, hp⟩
  · -- pawn
    rcases getPawnMoves_mem hov hp with h1 | h2 | h3 | h4
    · rw [h1.2.2] at hq
      cases hq
    · rw [h2.2.2.2.2] at hq
      cases hq
    · unfold canPieceAttackSquare
      rw [hov]
      dsimp only []
      rw [hty]
      dsimp only []
      apply decide_eq_true
      rcases h3.1 with hco | hco <;> rw [hco] <;> dsimp only [] <;>
        exact ⟨rfl, by omega⟩
    · obtain ⟨t, hepv, htos, _, _⟩ := h4
      have ht := hept t hepv
      rw [htos] at hq
      have ht' : boardGet b (⟨t.row, t.col⟩ : ChessSquare) = none := by
        convert ht using 2
      rw [ht'] at hq
      cases hq
  · -- rook
    obtain ⟨dir, hdir, k, hk1, hco, hbnd, hemp, _⟩ := getRookMoves_mem hov hp
    have htb := (isInBounds_iff toSq).mp hbnd
    rw [hco] at htb
    dsimp only [] at htb
    have hk7 : k ≤ 7 := by
      fin_cases hdir <;> dsimp only [] at htb <;> omega
    unfold canPieceAttackSquare
    rw [hov]
    dsimp only []
    rw [hty]
    dsimp only []
    rw [Bool.and_eq_true]
    constructor
    · apply decide_eq_true
      rw [hco]
      fin_cases hdir <;> dsimp only [] <;> [left; left; right; right] <;> omega
    · exact isPathClear_of_walk b f toSq dir (Or.inl hdir) k hk1 hk7 hco hemp
  · -- knight
    obtain ⟨off, hoff, hco, hbnd, _⟩ := getKnightMoves_mem hov hp
    unfold canPieceAttackSquare
    rw [hov]
    dsimp only []
    rw [hty]
    dsimp only []
    apply decide_eq_true
    rw [hco]
    fin_cases hoff <;> dsimp only [] <;> omega
  · -- bishop
    obtain ⟨dir, hdir, k, hk1, hco, hbnd, hemp, _⟩ := getBishopMoves_mem hov hp
    have htb := (isInBounds_iff toSq).mp hbnd
    rw [hco] at htb
    dsimp only [] at htb
    have hk7 : k ≤ 7 := by
      fin_cases hdir <;> dsimp only [] at htb <;> omega
    unfold canPieceAttackSquare
    rw [hov]
    dsimp only []
    rw [hty]
    dsimp only []
    rw [Bool.and_eq_true]
    constructor
    · apply decide_eq_true
      rw [hco]
      fin_cases hdir <;> dsimp only [] <;> omega
    · exact isPathClear_of_walk b f toSq dir (Or.inr hdir) k hk1 hk7 hco hemp
  · -- queen
    obtain ⟨dir, hdir, k, hk1, hco, hbnd, hemp, _⟩ := getQueenMoves_mem hov hp
    have htb := (isInBounds_iff toSq).mp hbnd
    rw [hco] at htb
    dsimp only [] at htb
    have hk7 : k ≤ 7 := by
      rcases hdir with h | h <;> fin_cases h <;> dsimp only [] at htb <;> omega
    unfold canPieceAttackSquare
    rw [hov]
    dsimp only []
    rw [hty]
    dsimp only []
    rw [Bool.and_eq_true]
    constructor
    · apply decide_eq_true
      rw [hco]
      rcases hdir with h | h <;> fin_cases h <;> dsimp only []
      · exact Or.inl (Or.inl (by omega))
      · exact Or.inl (Or.inl (by omega))
      · exact Or.inl (Or.inr (by omega))
      · exact Or.inl (Or.inr (by omega))
      · exact Or.inr (by omega)
      · exact Or.inr (by omega)
      · exact Or.inr (by omega)
      · exact Or.inr (by omega)
    · exact isPathClear_of_walk b f toSq dir hdir k hk1 hk7 hco hemp
  · -- king
    rcases getKingMoves_mem hov hp with ⟨off, hoff, hco, hbnd, _⟩ | ⟨_, _, hcistle⟩
    · unfold canPieceAttackSquare
      rw [hov]
      dsimp only []
      rw [hty]
      dsimp only []
      apply decide_eq_true
      rw [hco]
      fin_cases hoff <;> dsimp only [] <;> constructor <;> omega
    · rcases hcistle with ⟨htos, rook, hrk, hrt, hrm, h5, h6, hatt5, hatt6⟩ |
        ⟨htos, rook, hrk, hrt, hrm, h1, h2, h3, hatt2, hatt3⟩
      · rw [htos] at hq
        rw [h6] at hq
        cases hq
      · rw [htos] at hq
        rw [h2] at hq
        cases hq

/- ===== Stage F1: makeMove shape lemmas ===== -/

theorem makeMove_fields (st : GameState) (fromSq toSq : ChessSquare)
    (piece : ChessPiece) (hov : boardGet st.board fromSq = some piece) :
    (makeMove st fromSq toSq).currentPlayer = opponentOf st.currentPlayer ∧
    (makeMove st fromSq toSq).enPassantTarget =
      (if piece.type = PieceType.pawn ∧ (toSq.row - fromSq.row).natAbs = 2 then
        some ⟨(fromSq.row + toSq.row) / 2, fromSq.col⟩
      else none) := by
  constructor <;> simp only [makeMove, hov]

theorem movedPieceFacts (piece : ChessPiece) (toSq : ChessSquare) :
    ∃ moved : ChessPiece, moved.color = piece.color ∧
      (moved.type = PieceType.king ↔ piece.type = PieceType.king) ∧
      moved.hasMoved = true ∧
      moved = (match (if piece.type = PieceType.pawn ∧ (toSq.row = 0 ∨ toSq.row = 7) then
          some PieceType.queen else none) with
        | some p => { piece with type := p, hasMoved := true }
        | none => { piece with hasMoved := true }) := by
  refine ⟨_, ?_, ?_, ?_, rfl⟩ <;>
    by_cases hq : piece.type = PieceType.pawn ∧ (toSq.row = 0 ∨ toSq.row = 7)
  · rw [if_pos hq]
  · rw [if_neg hq]
  · rw [if_pos hq]
    dsimp only []
    rw [hq.1]
    constructor
    · intro h
      cases h
    · intro h
      cases h
  · rw [if_neg hq]
  · rw [if_pos hq]
  · rw [if_neg hq]

theorem makeMove_board_plain (st : GameState) (fromSq toSq : ChessSquare)
    (piece : ChessPiece) (hov : boardGet st.board fromSq = some piece)
    (hnc : ¬(piece.type = PieceType.king ∧ (toSq.col - fromSq.col).natAbs = 2))
    (hne : ∀ t, st.enPassantTarget = some t →
      ¬(piece.type = PieceType.pawn ∧ toSq.row = t.row ∧ toSq.col = t.col)) :
    ∃ moved : ChessPiece, moved.color = piece.color ∧
      (moved.type = PieceType.king ↔ piece.type = PieceType.king) ∧
      moved.hasMoved = true ∧
      (makeMove st fromSq toSq).board =
        boardSet (boardSet st.board toSq (some moved)) fromSq none := by
  obtain ⟨moved, hc, hk, hm, hdef⟩ := movedPieceFacts piece toSq
  refine ⟨moved, hc, hk, hm, ?_⟩
  simp only [makeMove, hov]
  rw [if_neg hnc]
  cases het : st.enPassantTarget with
  | none =>
    rw [← hdef]
    exact rfl
  | some t =>
    dsimp only []
    rw [decide_eq_false (hne t het), ← hdef]
    exact rfl

theorem makeMove_board_ep (st : GameState) (fromSq toSq : ChessSquare)
    (piece : ChessPiece) (t : ChessSquare)
    (hov : boardGet st.board fromSq = some piece)
    (hnc : ¬(piece.type = PieceType.king ∧ (toSq.col - fromSq.col).natAbs = 2))
    (het : st.enPassantTarget = some t)
    (hcond : piece.type = PieceType.pawn ∧ toSq.row = t.row ∧ toSq.col = t.col) :
    ∃ moved : ChessPiece, moved.color = piece.color ∧
      (moved.type = PieceType.king ↔ piece.type = PieceType.king) ∧
      moved.hasMoved = true ∧
      (makeMove st fromSq toSq).board =
        boardSet (boardSet (boardSet st.board ⟨fromSq.row, toSq.col⟩ none) toSq
          (some moved)) fromSq none := by
  obtain ⟨moved, hc, hk, hm, hdef⟩ := movedPieceFacts piece toSq
  refine ⟨moved, hc, hk, hm, ?_⟩
  simp only [makeMove, hov]
  rw [if_neg hnc]
  rw [het]
  dsimp only []
  rw [decide_eq_true hcond, ← hdef]
  exact rfl

theorem makeMove_board_castle_ks (st : GameState) (fromSq toSq : ChessSquare)
    (piece rook : ChessPiece) (hov : boardGet st.board fromSq = some piece)
    (hty : piece.type = PieceType.king) (hc4 : fromSq.col = 4)
    (hto : toSq = ⟨fromSq.row, 6⟩)
    (hrk : boardGet st.board ⟨fromSq.row, 7⟩ = some rook) :
    (makeMove st fromSq toSq).board =
      boardSet (boardSet (boardSet (boardSet st.board ⟨fromSq.row, 5⟩
        (some { rook with hasMoved := true })) ⟨fromSq.row, 7⟩ none) toSq
        (some { piece with hasMoved := true })) fromSq none := by
  have hcc : piece.type = PieceType.king ∧ (toSq.col - fromSq.col).natAbs = 2 := by
    subst hto
    exact ⟨hty, by dsimp only []; omega⟩
  have hgt : toSq.col > fromSq.col := by
    subst hto
    dsimp only []
    omega
  have hnp : piece.type ≠ PieceType.pawn := by
    rw [hty]
    intro h
    cases h
  have hnq : ¬(piece.type = PieceType.pawn ∧ (toSq.row = 0 ∨ toSq.row = 7)) := by
    rintro ⟨hp, _⟩
    exact hnp hp
  have h7 : (if CastlingSide.kingside = CastlingSide.kingside then (7 : Int) else 0) = 7 := rfl
  have h5 : (if CastlingSide.kingside = CastlingSide.kingside then (5 : Int) else 3) = 5 := rfl
  simp only [makeMove, hov]
  rw [if_pos hcc, if_pos hgt]
  dsimp only []
  rw [h7, h5, hrk]
  cases het : st.enPassantTarget with
  | none =>
    rw [if_neg hnq]
    exact rfl
  | some t =>
    dsimp only []
    rw [decide_eq_false (fun hcond => hnp hcond.1), if_neg hnq]
    exact rfl

theorem makeMove_board_castle_qs (st : GameState) (fromSq toSq : ChessSquare)
    (piece rook : ChessPiece) (hov : boardGet st.board fromSq = some piece)
    (hty : piece.type = PieceType.king) (hc4 : fromSq.col = 4)
    (hto : toSq = ⟨fromSq.row, 2⟩)
    (hrk : boardGet st.board ⟨fromSq.row, 0⟩ = some rook) :
    (makeMove st fromSq toSq).board =
      boardSet (boardSet (boardSet (boardSet st.board ⟨fromSq.row, 3⟩
        (some { rook with hasMoved := true })) ⟨fromSq.row, 0⟩ none) toSq
        (some { piece with hasMoved := true })) fromSq none := by
  have hcc : piece.type = PieceType.king ∧ (toSq.col - fromSq.col).natAbs = 2 := by
    subst hto
    exact ⟨hty, by dsimp only []; omega⟩
  have hgt : ¬(toSq.col > fromSq.col) := by
    subst hto
    dsimp only []
    omega
  have hnp : piece.type ≠ PieceType.pawn := by
    rw [hty]
    intro h
    cases h
  have hnq : ¬(piece.type = PieceType.pawn ∧ (toSq.row = 0 ∨ toSq.row = 7)) := by
    rintro ⟨hp, _⟩
    exact hnp hp
  have h0 : (if CastlingSide.queenside = CastlingSide.kingside then (7 : Int) else 0) = 0 := rfl
  have h3 : (if CastlingSide.queenside = CastlingSide.kingside then (5 : Int) else 3) = 3 := rfl
  simp only [makeMove, hov]
  rw [if_pos hcc, if_neg hgt]
  dsimp only []
  rw [h0, h3, hrk]
  cases het : st.enPassantTarget with
  | none =>
    rw [if_neg hnq]
    exact rfl
  | some t =>
    dsimp only []
    rw [decide_eq_false (fun hcond => hnp hcond.1), if_neg hnq]
    exact rfl

/- ===== Stage F2: check congruence for a plain relocation ===== -/

theorem isKingInCheck_ext (b1 b2 : Board) (c : PieceColor)
    (h : ∀ s, boardGet b1 s = boardGet b2 s) :
    isKingInCheck b1 c = isKingInCheck b2 c := by
  apply isKingInCheck_congr
  · intro s
    rw [h s]
  · intro s p
    constructor
    · intro h1 _
      rw [← h s]
      exact h1
    · intro h2 _
      rw [h s]
      exact h2
  · intro s
    unfold isKingCell
    rw [h s]

theorem boardGet_relocate (b : Board) (fromSq toSq : ChessSquare)
    (v : Option ChessPiece) (s : ChessSquare) :
    boardGet (boardSet (boardSet b toSq v) fromSq none) s =
      if s = fromSq then none
      else if s = toSq then (if isInBounds s = true then v else none)
      else boardGet b s := by
  rw [boardGet_boardSet]
  by_cases hf : s = fromSq
  · rw [if_pos hf, if_pos hf, ite_self]
  · rw [if_neg hf, if_neg hf, boardGet_boardSet]

theorem check_congr_relocate (b : Board) (c : PieceColor) (fromSq toSq : ChessSquare)
    (piece moved : ChessPiece) (hpc : piece.color = c)
    (hc : moved.color = piece.color)
    (hk : (moved.type = PieceType.king) ↔ (piece.type = PieceType.king)) :
    isKingInCheck (boardSet (boardSet b toSq (some moved)) fromSq none) c =
      isKingInCheck (boardSet (boardSet b toSq (some piece)) fromSq none) c := by
  apply isKingInCheck_congr
  · intro s
    rw [boardGet_relocate, boardGet_relocate]
    by_cases hf : s = fromSq
    · rw [if_pos hf, if_pos hf]
    · rw [if_neg hf, if_neg hf]
      by_cases hs : s = toSq
      · rw [if_pos hs, if_pos hs]
        by_cases hb : isInBounds s = true
        · rw [if_pos hb, if_pos hb]
          rfl
        · rw [if_neg hb, if_neg hb]
      · rw [if_neg hs, if_neg hs]
  · intro s p
    rw [boardGet_relocate, boardGet_relocate]
    by_cases hf : s = fromSq
    · rw [if_pos hf, if_pos hf]
      constructor
      · intro h1
        cases h1
      · intro h2
        cases h2
    · rw [if_neg hf, if_neg hf]
      by_cases hs : s = toSq
      · rw [if_pos hs, if_pos hs]
        by_cases hb : isInBounds s = true
        · rw [if_pos hb, if_pos hb]
          constructor
          · intro h1 hatt
            exfalso
            injection h1 with e
            rw [← e, hc, hpc] at hatt
            exact opponentOf_ne c hatt.symm
          · intro h2 hatt
            exfalso
            injection h2 with e
            rw [← e, hpc] at hatt
            exact opponentOf_ne c hatt.symm
        · rw [if_neg hb, if_neg hb]
          constructor
          · intro h1
            cases h1
          · intro h2
            cases h2
      · rw [if_neg hs, if_neg hs]
        constructor
        · intro h1 _
          exact h1
        · intro h2 _
          exact h2
  · intro s
    unfold isKingCell
    rw [boardGet_relocate, boardGet_relocate]
    by_cases hf : s = fromSq
    · rw [if_pos hf, if_pos hf]
    · rw [if_neg hf, if_neg hf]
      by_cases hs : s = toSq
      · rw [if_pos hs, if_pos hs]
        by_cases hb : isInBounds s = true
        · rw [if_pos hb, if_pos hb]
          dsimp only []
          rw [hc]
          apply decide_eq_decide.mpr
          constructor
          · rintro ⟨h1, h2⟩
            exact ⟨hk.mp h1, h2⟩
          · rintro ⟨h1, h2⟩
            exact ⟨hk.mpr h1, h2⟩
        · rw [if_neg hb, if_neg hb]
      · rw [if_neg hs, if_neg hs]

/- ===== Stage H: initial-board facts and king location after castling ===== -/

theorem pieceOrder_king_idx : ∀ n : Nat, n < 8 →
    pieceOrder.getD n PieceType.rook = PieceType.king → n = 4 := by decide

theorem initialBoard_corner_77 :
    boardGet createInitialBoard ⟨7, 7⟩ =
      some ⟨PieceType.rook, PieceColor.white, false⟩ := by decide

theorem initialBoard_corner_70 :
    boardGet createInitialBoard ⟨7, 0⟩ =
      some ⟨PieceType.rook, PieceColor.white, false⟩ := by decide

theorem initialBoard_corner_07 :
    boardGet createInitialBoard ⟨0, 7⟩ =
      some ⟨PieceType.rook, PieceColor.black, false⟩ := by decide

theorem initialBoard_corner_00 :
    boardGet createInitialBoard ⟨0, 0⟩ =
      some ⟨PieceType.rook, PieceColor.black, false⟩ := by decide

theorem initialBoard_king_pos (s : ChessSquare) (p : ChessPiece)
    (h : boardGet createInitialBoard s = some p) (hk : p.type = PieceType.king) :
    (s = ⟨7, 4⟩ ∧ p.color = PieceColor.white) ∨
      (s = ⟨0, 4⟩ ∧ p.color = PieceColor.black) := by
  have hb := boardGet_inBounds h
  have hbd := (isInBounds_iff s).mp hb
  obtain ⟨sr, sc⟩ := s
  have h' : createInitialBoard ⟨sr, sc⟩ = some p := by
    unfold boardGet at h
    rwa [if_pos hb] at h
  unfold createInitialBoard at h'
  dsimp only [] at h' hbd
  rw [if_pos ⟨hbd.2.2.1, hbd.2.2.2⟩] at h'
  by_cases h0 : sr = 0
  · rw [if_pos h0] at h'
    injection h' with e
    right
    rw [← e] at hk
    dsimp only [] at hk
    have hc4 := pieceOrder_king_idx sc.toNat (by omega) hk
    have hsc : sc = 4 := by omega
    constructor
    · rw [h0, hsc]
    · rw [← e]
  · rw [if_neg h0] at h'
    by_cases h1 : sr = 1
    · rw [if_pos h1] at h'
      injection h' with e
      rw [← e] at hk
      exact absurd hk (by decide)
    · rw [if_neg h1] at h'
      by_cases h6 : sr = 6
      · rw [if_pos h6] at h'
        injection h' with e
        rw [← e] at hk
        exact absurd hk (by decide)
      · rw [if_neg h6] at h'
        by_cases h7 : sr = 7
        · rw [if_pos h7] at h'
          injection h' with e
          left
          rw [← e] at hk
          dsimp only [] at hk
          have hc4 := pieceOrder_king_idx sc.toNat (by omega) hk
          have hsc : sc = 4 := by omega
          constructor
          · rw [h7, hsc]
          · rw [← e]
        · rw [if_neg h7] at h'
          cases h'

theorem boardGet_castle (b : Board) (c5 c7 c6 cf : ChessSquare)
    (v5 v6 : Option ChessPiece) (s : ChessSquare) :
    boardGet (boardSet (boardSet (boardSet (boardSet b c5 v5) c7 none) c6 v6) cf none) s =
      if s = cf then none
      else if s = c6 then (if isInBounds s = true then v6 else none)
      else if s = c7 then none
      else if s = c5 then (if isInBounds s = true then v5 else none)
      else boardGet b s := by
  rw [boardGet_boardSet]
  by_cases hf : s = cf
  · rw [if_pos hf, if_pos hf, ite_self]
  · rw [if_neg hf, if_neg hf, boardGet_boardSet]
    by_cases h6 : s = c6
    · rw [if_pos h6, if_pos h6]
    · rw [if_neg h6, if_neg h6, boardGet_boardSet]
      by_cases h7 : s = c7
      · rw [if_pos h7, if_pos h7, ite_self]
      · rw [if_neg h7, if_neg h7, boardGet_boardSet]

theorem findKing_relocate (b : Board) (c : PieceColor) (fromSq toSq : ChessSquare)
    (moved : ChessPiece)
    (hmty : moved.type = PieceType.king) (hmcol : moved.color = c)
    (hne : fromSq ≠ toSq) (htb : isInBounds toSq = true)
    (huniq : ∀ s ∈ allSquares, isKingCell b c s = true → s = fromSq) :
    findKing (boardSet (boardSet b toSq (some moved)) fromSq none) c = some toSq := by
  unfold findKing
  apply find?_eq_some_of_unique
  · exact (mem_allSquares toSq).mpr ((isInBounds_iff toSq).mp htb)
  · rw [isKingCell_eq_true]
    refine ⟨moved, ?_, hmty, hmcol⟩
    rw [boardGet_relocate, if_neg (Ne.symm hne), if_pos rfl, if_pos htb]
  · intro s hs hcell
    rw [isKingCell_eq_true] at hcell
    obtain ⟨p, hp, hpt, hpc⟩ := hcell
    rw [boardGet_relocate] at hp
    by_cases hf : s = fromSq
    · rw [if_pos hf] at hp
      cases hp
    · rw [if_neg hf] at hp
      by_cases ht : s = toSq
      · exact ht
      · rw [if_neg ht] at hp
        exact absurd (huniq s hs (isKingCell_eq_true.mpr ⟨p, hp, hpt, hpc⟩)) hf

theorem findKing_castle (b : Board) (c : PieceColor) (c5 c7 cf toSq : ChessSquare)
    (v5 : Option ChessPiece) (moved : ChessPiece)
    (hv5 : ∀ q : ChessPiece, v5 = some q → q.type ≠ PieceType.king)
    (hmty : moved.type = PieceType.king) (hmcol : moved.color = c)
    (hne : toSq ≠ cf) (htb : isInBounds toSq = true)
    (huniq : ∀ s ∈ allSquares, isKingCell b c s = true → s = cf) :
    findKing (boardSet (boardSet (boardSet (boardSet b c5 v5) c7 none) toSq
      (some moved)) cf none) c = some toSq := by
  unfold findKing
  apply find?_eq_some_of_unique
  · exact (mem_allSquares toSq).mpr ((isInBounds_iff toSq).mp htb)
  · rw [isKingCell_eq_true]
    refine ⟨moved, ?_, hmty, hmcol⟩
    rw [boardGet_castle, if_neg hne, if_pos rfl, if_pos htb]
  · intro s hs hcell
    rw [isKingCell_eq_true] at hcell
    obtain ⟨p, hp, hpt, hpc⟩ := hcell
    rw [boardGet_castle] at hp
    by_cases hf : s = cf
    · rw [if_pos hf] at hp
      cases hp
    · rw [if_neg hf] at hp
      by_cases ht : s = toSq
      · exact ht
      · rw [if_neg ht] at hp
        by_cases h7 : s = c7
        · rw [if_pos h7] at hp
          cases hp
        · rw [if_neg h7] at hp
          by_cases h5 : s = c5
          · rw [if_pos h5] at hp
            by_cases hb : isInBounds s = true
            · rw [if_pos hb] at hp
              exact absurd hpt (hv5 p hp)
            · rw [if_neg hb] at hp
              cases hp
          · rw [if_neg h5] at hp
            exact absurd (huniq s hs (isKingCell_eq_true.mpr ⟨p, hp, hpt, hpc⟩)) hf

/- ===== Stage G: castling attack transfer ===== -/

theorem pathClear_transfer_ks (b1 b2 : Board) (r : Int) (s : ChessSquare)
    (hsb : 0 ≤ s.row ∧ s.row < 8 ∧ 0 ≤ s.col ∧ s.col < 8)
    (halign : s.row = r ∨ s.col = 6 ∨ (s.row - r).natAbs = (s.col - 6).natAbs)
    (hocc : ∀ x, x ≠ (⟨r, 5⟩ : ChessSquare) → x ≠ ⟨r, 7⟩ → x ≠ ⟨r, 6⟩ →
      boardGet b1 x = boardGet b2 x)
    (h5b2 : boardGet b2 ⟨r, 5⟩ = none)
    (hclear : isPathClear b1 s ⟨r, 6⟩ = true) :
    isPathClear b2 s ⟨r, 6⟩ = true := by
  unfold isPathClear at hclear ⊢
  dsimp only [] at hclear ⊢
  apply pathClearAux_mono b1 b2 ⟨r, 6⟩ (pathDir s.row r) (pathDir s.col 6) 8 _ ?_ hclear
  intro k hk guard hocc2
  dsimp only [] at guard hocc2 ⊢
  by_cases h5 : (⟨s.row + pathDir s.row r + (k : Int) * pathDir s.row r,
      s.col + pathDir s.col 6 + (k : Int) * pathDir s.col 6⟩ : ChessSquare) = ⟨r, 5⟩
  · exfalso
    rw [h5, h5b2] at hocc2
    cases hocc2
  by_cases h7 : (⟨s.row + pathDir s.row r + (k : Int) * pathDir s.row r,
      s.col + pathDir s.col 6 + (k : Int) * pathDir s.col 6⟩ : ChessSquare) = ⟨r, 7⟩
  · exfalso
    have hrow7 : s.row + pathDir s.row r + (k : Int) * pathDir s.row r = r := by
      injection h7 with e1 e2
    have hcol7 : s.col + pathDir s.col 6 + (k : Int) * pathDir s.col 6 = 7 := by
      injection h7 with e1 e2
    have hdc := pathDir_eq s.col 6
    have hdr := pathDir_eq s.row r
    by_cases hc6 : (6 : Int) = s.col
    · rw [if_pos hc6] at hdc
      rw [hdc] at hcol7
      omega
    · rw [if_neg hc6] at hdc
      by_cases hlt : s.col < 6
      · rw [if_pos hlt] at hdc
        rw [hdc] at hcol7
        rcases halign with hal | hal | hal
        · -- same-row attacker sliding right: it passes over (r,6) first
          have hdr0 : pathDir s.row r = 0 := by
            rw [hdr, if_pos hal.symm]
          apply guard (k - 1) (by omega)
          have hk1 : 1 ≤ k := by omega
          simp only [ChessSquare.mk.injEq]
          rw [hdr0, hdc]
          constructor <;> push_cast <;> omega
        · omega
        · -- a diagonal line through (r,6) never meets (r,7)
          by_cases hre : r = s.row
          · rw [if_pos hre] at hdr
            rw [hdr] at hrow7
            omega
          · rw [if_neg hre] at hdr
            by_cases hrlt : s.row < r
            · rw [if_pos hrlt] at hdr
              rw [hdr] at hrow7
              omega
            · rw [if_neg hrlt] at hdr
              rw [hdr] at hrow7
              omega
      · rw [if_neg hlt] at hdc
        rw [hdc] at hcol7
        omega
  have h6 := guard k le_rfl
  rw [hocc _ h5 h7 h6]
  exact hocc2

theorem pathClear_transfer_qs (b1 b2 : Board) (r : Int) (s : ChessSquare)
    (hsb : 0 ≤ s.row ∧ s.row < 8 ∧ 0 ≤ s.col ∧ s.col < 8)
    (halign : s.row = r ∨ s.col = 2 ∨ (s.row - r).natAbs = (s.col - 2).natAbs)
    (hocc : ∀ x, x ≠ (⟨r, 3⟩ : ChessSquare) → x ≠ ⟨r, 0⟩ → x ≠ ⟨r, 2⟩ →
      boardGet b1 x = boardGet b2 x)
    (h3b2 : boardGet b2 ⟨r, 3⟩ = none)
    (hclear : isPathClear b1 s ⟨r, 2⟩ = true) :
    isPathClear b2 s ⟨r, 2⟩ = true := by
  unfold isPathClear at hclear ⊢
  dsimp only [] at hclear ⊢
  apply pathClearAux_mono b1 b2 ⟨r, 2⟩ (pathDir s.row r) (pathDir s.col 2) 8 _ ?_ hclear
  intro k hk guard hocc2
  dsimp only [] at guard hocc2 ⊢
  by_cases h3 : (⟨s.row + pathDir s.row r + (k : Int) * pathDir s.row r,
      s.col + pathDir s.col 2 + (k : Int) * pathDir s.col 2⟩ : ChessSquare) = ⟨r, 3⟩
  · exfalso
    rw [h3, h3b2] at hocc2
    cases hocc2
  by_cases h0 : (⟨s.row + pathDir s.row r + (k : Int) * pathDir s.row r,
      s.col + pathDir s.col 2 + (k : Int) * pathDir s.col 2⟩ : ChessSquare) = ⟨r, 0⟩
  · exfalso
    have hrow0 : s.row + pathDir s.row r + (k : Int) * pathDir s.row r = r := by
      injection h0 with e1 e2
    have hcol0 : s.col + pathDir s.col 2 + (k : Int) * pathDir s.col 2 = 0 := by
      injection h0 with e1 e2
    have hdc := pathDir_eq s.col 2
    have hdr := pathDir_eq s.row r
    by_cases hc2 : (2 : Int) = s.col
    · rw [if_pos hc2] at hdc
      rw [hdc] at hcol0
      omega
    · rw [if_neg hc2] at hdc
      by_cases hlt : s.col < 2
      · rw [if_pos hlt] at hdc
        rw [hdc] at hcol0
        omega
      · rw [if_neg hlt] at hdc
        rw [hdc] at hcol0
        rcases halign with hal | hal | hal
        · have hdr0 : pathDir s.row r = 0 := by
            rw [hdr, if_pos hal.symm]
          apply guard (s.col - 3).toNat (by omega)
          simp only [ChessSquare.mk.injEq]
          rw [hdr0, hdc]
          constructor <;> push_cast <;> omega
        · omega
        · by_cases hre : r = s.row
          · rw [if_pos hre] at hdr
            rw [hdr] at hrow0
            omega
          · rw [if_neg hre] at hdr
            by_cases hrlt : s.row < r
            · rw [if_pos hrlt] at hdr
              rw [hdr] at hrow0
              omega
            · rw [if_neg hrlt] at hdr
              rw [hdr] at hrow0
              omega
  have h2 := guard k le_rfl
  rw [hocc _ h3 h0 h2]
  exact hocc2

theorem attack_transfer_ks (b1 b2 : Board) (r : Int) (att : PieceColor)
    (hocc : ∀ s, s ≠ (⟨r, 5⟩ : ChessSquare) → s ≠ ⟨r, 7⟩ → s ≠ ⟨r, 6⟩ →
      boardGet b1 s = boardGet b2 s)
    (h5b2 : boardGet b2 ⟨r, 5⟩ = none)
    (h7b1 : boardGet b1 ⟨r, 7⟩ = none)
    (h5b1 : ∀ p, boardGet b1 ⟨r, 5⟩ = some p → p.color ≠ att)
    (h6b1 : ∀ p, boardGet b1 ⟨r, 6⟩ = some p → p.color ≠ att)
    (hatt : isSquareUnderAttack b1 ⟨r, 6⟩ att = true) :
    isSquareUnderAttack b2 ⟨r, 6⟩ att = true := by
  rw [isSquareUnderAttack_iff] at hatt ⊢
  obtain ⟨s, hs, p, hps, hpc, hcan⟩ := hatt
  have hs5 : s ≠ ⟨r, 5⟩ := fun h => h5b1 p (h ▸ hps) hpc
  have hs7 : s ≠ ⟨r, 7⟩ := by
    intro h
    rw [h, h7b1] at hps
    cases hps
  have hs6 : s ≠ ⟨r, 6⟩ := fun h => h6b1 p (h ▸ hps) hpc
  have hps2 : boardGet b2 s = some p := by
    rw [← hocc s hs5 hs7 hs6]
    exact hps
  have hsb := (isInBounds_iff s).mp (boardGet_inBounds hps)
  refine ⟨s, hs, p, hps2, hpc, ?_⟩
  unfold canPieceAttackSquare at hcan ⊢
  rw [hps] at hcan
  dsimp only [] at hcan
  rw [hps2]
  dsimp only []
  cases hty : p.type with
  | pawn =>
    rw [hty] at hcan
    exact hcan
  | knight =>
    rw [hty] at hcan
    exact hcan
  | king =>
    rw [hty] at hcan
    exact hcan
  | rook =>
    rw [hty] at hcan
    try dsimp only [] at hcan
    try dsimp only []
    rw [Bool.and_eq_true] at hcan ⊢
    refine ⟨hcan.1, ?_⟩
    have halign := of_decide_eq_true hcan.1
    try dsimp only [] at halign
    apply pathClear_transfer_ks b1 b2 r s hsb ?_ hocc h5b2 hcan.2
    rcases halign with h | h
    · exact Or.inl h
    · exact Or.inr (Or.inl h)
  | bishop =>
    rw [hty] at hcan
    try dsimp only [] at hcan
    try dsimp only []
    rw [Bool.and_eq_true] at hcan ⊢
    refine ⟨hcan.1, ?_⟩
    have halign := of_decide_eq_true hcan.1
    try dsimp only [] at halign
    exact pathClear_transfer_ks b1 b2 r s hsb (Or.inr (Or.inr halign)) hocc h5b2 hcan.2
  | queen =>
    rw [hty] at hcan
    try dsimp only [] at hcan
    try dsimp only []
    rw [Bool.and_eq_true] at hcan ⊢
    refine ⟨hcan.1, ?_⟩
    have halign := of_decide_eq_true hcan.1
    try dsimp only [] at halign
    apply pathClear_transfer_ks b1 b2 r s hsb ?_ hocc h5b2 hcan.2
    rcases halign with (h | h) | h
    · exact Or.inl h
    · exact Or.inr (Or.inl h)
    · exact Or.inr (Or.inr h)

theorem attack_transfer_qs (b1 b2 : Board) (r : Int) (att : PieceColor)
    (hocc : ∀ s, s ≠ (⟨r, 3⟩ : ChessSquare) → s ≠ ⟨r, 0⟩ → s ≠ ⟨r, 2⟩ →
      boardGet b1 s = boardGet b2 s)
    (h3b2 : boardGet b2 ⟨r, 3⟩ = none)
    (h0b1 : boardGet b1 ⟨r, 0⟩ = none)
    (h3b1 : ∀ p, boardGet b1 ⟨r, 3⟩ = some p → p.color ≠ att)
    (h2b1 : ∀ p, boardGet b1 ⟨r, 2⟩ = some p → p.color ≠ att)
    (hatt : isSquareUnderAttack b1 ⟨r, 2⟩ att = true) :
    isSquareUnderAttack b2 ⟨r, 2⟩ att = true := by
  rw [isSquareUnderAttack_iff] at hatt ⊢
  obtain ⟨s, hs, p, hps, hpc, hcan⟩ := hatt
  have hs3 : s ≠ ⟨r, 3⟩ := fun h => h3b1 p (h ▸ hps) hpc
  have hs0 : s ≠ ⟨r, 0⟩ := by
    intro h
    rw [h, h0b1] at hps
    cases hps
  have hs2 : s ≠ ⟨r, 2⟩ := fun h => h2b1 p (h ▸ hps) hpc
  have hps2 : boardGet b2 s = some p := by
    rw [← hocc s hs3 hs0 hs2]
    exact hps
  have hsb := (isInBounds_iff s).mp (boardGet_inBounds hps)
  refine ⟨s, hs, p, hps2, hpc, ?_⟩
  unfold canPieceAttackSquare at hcan ⊢
  rw [hps] at hcan
  dsimp only [] at hcan
  rw [hps2]
  dsimp only []
  cases hty : p.type with
  | pawn =>
    rw [hty] at hcan
    exact hcan
  | knight =>
    rw [hty] at hcan
    exact hcan
  | king =>
    rw [hty] at hcan
    exact hcan
  | rook =>
    rw [hty] at hcan
    try dsimp only [] at hcan
    try dsimp only []
    rw [Bool.and_eq_true] at hcan ⊢
    refine ⟨hcan.1, ?_⟩
    have halign := of_decide_eq_true hcan.1
    try dsimp only [] at halign
    apply pathClear_transfer_qs b1 b2 r s hsb ?_ hocc h3b2 hcan.2
    rcases halign with h | h
    · exact Or.inl h
    · exact Or.inr (Or.inl h)
  | bishop =>
    rw [hty] at hcan
    try dsimp only [] at hcan
    try dsimp only []
    rw [Bool.and_eq_true] at hcan ⊢
    refine ⟨hcan.1, ?_⟩
    have halign := of_decide_eq_true hcan.1
    try dsimp only [] at halign
    exact pathClear_transfer_qs b1 b2 r s hsb (Or.inr (Or.inr halign)) hocc h3b2 hcan.2
  | queen =>
    rw [hty] at hcan
    try dsimp only [] at hcan
    try dsimp only []
    rw [Bool.and_eq_true] at hcan ⊢
    refine ⟨hcan.1, ?_⟩
    have halign := of_decide_eq_true hcan.1
    try dsimp only [] at halign
    apply pathClear_transfer_qs b1 b2 r s hsb ?_ hocc h3b2 hcan.2
    rcases halign with (h | h) | h
    · exact Or.inl h
    · exact Or.inr (Or.inl h)
    · exact Or.inr (Or.inr h)

/- ===== Stage F3: the core lemma (castle branch pending) ===== -/

theorem makeMove_no_self_check (st : GameState) (fromSq toSq : ChessSquare)
    (hInv : ChessInv st)
    (hmem : toSq ∈ getValidMoves st.board fromSq st.currentPlayer st.enPassantTarget
      st.moveHistory) :
    isKingInCheck (makeMove st fromSq toSq).board st.currentPlayer = false := by
  obtain ⟨piece, hov, hcol, hsim, hdisp⟩ := getValidMoves_mem hmem
  obtain ⟨hkc, hko, hep, hsafe, hunm⟩ := hInv
  have hsim' : isKingInCheck (boardSet (boardSet st.board toSq (some piece)) fromSq none)
      st.currentPlayer = false := by
    unfold simulateMove at hsim
    rw [hov] at hsim
    exact hsim
  by_cases hcst : piece.type = PieceType.king ∧ (toSq.col - fromSq.col).natAbs = 2
  · -- castling: the rook hop cannot expose the king, because the vacated
    -- corner and the rook's new square lie beyond / on the attack lines
    -- already checked for the crossing squares
    have hkm : toSq ∈ getKingMoves st.board fromSq st.moveHistory := by
      rcases hdisp with ⟨hty, hp⟩ | ⟨hty, hp⟩ | ⟨hty, hp⟩ | ⟨hty, hp⟩ | ⟨hty, hp⟩ | ⟨hty, hp⟩
      · rw [hty] at hcst
        exact absurd hcst.1 (by decide)
      · rw [hty] at hcst
        exact absurd hcst.1 (by decide)
      · rw [hty] at hcst
        exact absurd hcst.1 (by decide)
      · rw [hty] at hcst
        exact absurd hcst.1 (by decide)
      · rw [hty] at hcst
        exact absurd hcst.1 (by decide)
      · exact hp
    obtain hnormal | ⟨hnm, hnchk, hcastle⟩ := getKingMoves_mem hov hkm
    · exfalso
      obtain ⟨off, hoff, htoeq2, hb2, hrest⟩ := hnormal
      have h2 := hcst.2
      rw [htoeq2] at h2
      fin_cases hoff <;> (dsimp only [] at h2; omega)
    · have hinit := hunm fromSq piece hov hnm
      have hkpos := initialBoard_king_pos fromSq piece hinit hcst.1
      have hfc : fromSq.col = 4 := by
        rcases hkpos with ⟨hfe, _⟩ | ⟨hfe, _⟩ <;> rw [hfe]
      have hrb : fromSq.row = 7 ∨ fromSq.row = 0 := by
        rcases hkpos with ⟨hfe, _⟩ | ⟨hfe, _⟩
        · left
          rw [hfe]
        · right
          rw [hfe]
      obtain ⟨k0, hk0⟩ := hkc
      have hfk : isKingCell st.board st.currentPlayer fromSq = true :=
        isKingCell_eq_true.mpr ⟨piece, hov, hcst.1, hcol⟩
      have huniq0 : ∀ s ∈ allSquares, isKingCell st.board st.currentPlayer s = true →
          s = fromSq := by
        intro s hs hcell
        rw [hk0.2 s hs hcell]
        exact (hk0.2 fromSq (boardGet_mem_allSquares hov) hfk).symm
      have hfne : ∀ j : Int, j ≠ (4 : Int) → fromSq ≠ ⟨fromSq.row, j⟩ := by
        intro j hj h
        apply hj
        have hc := congrArg ChessSquare.col h
        dsimp only [] at hc
        rw [hfc] at hc
        exact hc.symm
      have hcne : ∀ i j : Int, i ≠ j →
          (⟨fromSq.row, i⟩ : ChessSquare) ≠ ⟨fromSq.row, j⟩ := by
        intro i j hij h
        injection h with e1 e2
        exact hij e2
      rcases hcastle with ⟨htoeq, rook, hrk, hrkty, hrkm, h5e, h6e, h5a, h6a⟩ |
        ⟨htoeq, rook, hrk, hrkty, hrkm, h1e, h2e, h3e, h2a, h3a⟩
      · -- kingside
        subst htoeq
        have hrinit := hunm ⟨fromSq.row, 7⟩ rook hrk hrkm
        have hrc : rook.color = piece.color := by
          rcases hkpos with ⟨hfe, hpc⟩ | ⟨hfe, hpc⟩
          · rw [hfe] at hrinit
            dsimp only [] at hrinit
            have he := initialBoard_corner_77.symm.trans hrinit
            injection he with e
            rw [← e, hpc]
          · rw [hfe] at hrinit
            dsimp only [] at hrinit
            have he := initialBoard_corner_07.symm.trans hrinit
            injection he with e
            rw [← e, hpc]
        have htb6 : isInBounds (⟨fromSq.row, 6⟩ : ChessSquare) = true := by
          rcases hrb with h | h <;> rw [h] <;> decide
        have htb5 : isInBounds (⟨fromSq.row, 5⟩ : ChessSquare) = true := by
          rcases hrb with h | h <;> rw [h] <;> decide
        have hne46 : fromSq ≠ (⟨fromSq.row, 6⟩ : ChessSquare) := hfne 6 (by decide)
        have hbd := makeMove_board_castle_ks st fromSq ⟨fromSq.row, 6⟩ piece rook hov
          hcst.1 hfc rfl hrk
        rw [hbd]
        have hv5 : ∀ q : ChessPiece, some { rook with hasMoved := true } = some q →
            q.type ≠ PieceType.king := by
          intro q hq hqt
          injection hq with e
          rw [← e] at hqt
          dsimp only [] at hqt
          rw [hrkty] at hqt
          exact absurd hqt (by decide)
        have hfind1 := findKing_castle st.board st.currentPlayer ⟨fromSq.row, 5⟩
          ⟨fromSq.row, 7⟩ fromSq ⟨fromSq.row, 6⟩ (some { rook with hasMoved := true })
          { piece with hasMoved := true } hv5 hcst.1 hcol (Ne.symm hne46) htb6 huniq0
        have hfind2 := findKing_relocate st.board st.currentPlayer fromSq ⟨fromSq.row, 6⟩
          piece hcst.1 hcol hne46 htb6 huniq0
        have hatt2 : isSquareUnderAttack (boardSet (boardSet st.board ⟨fromSq.row, 6⟩
            (some piece)) fromSq none) ⟨fromSq.row, 6⟩
            (opponentOf st.currentPlayer) = false := by
          have h := hsim'
          unfold isKingInCheck at h
          rw [hfind2] at h
          dsimp only [] at h
          exact h
        have hocc : ∀ s, s ≠ (⟨fromSq.row, 5⟩ : ChessSquare) → s ≠ ⟨fromSq.row, 7⟩ →
            s ≠ ⟨fromSq.row, 6⟩ →
            boardGet (boardSet (boardSet (boardSet (boardSet st.board ⟨fromSq.row, 5⟩
              (some { rook with hasMoved := true })) ⟨fromSq.row, 7⟩ none) ⟨fromSq.row, 6⟩
              (some { piece with hasMoved := true })) fromSq none) s =
            boardGet (boardSet (boardSet st.board ⟨fromSq.row, 6⟩ (some piece))
              fromSq none) s := by
          intro s h5 h7 h6
          rw [boardGet_castle, boardGet_relocate]
          by_cases hf : s = fromSq
          · rw [if_pos hf, if_pos hf]
          · rw [if_neg hf, if_neg hf, if_neg h6, if_neg h6, if_neg h7, if_neg h5]
        have h5b2 : boardGet (boardSet (boardSet st.board ⟨fromSq.row, 6⟩ (some piece))
            fromSq none) ⟨fromSq.row, 5⟩ = none := by
          rw [boardGet_relocate, if_neg (Ne.symm (hfne 5 (by decide))),
            if_neg (hcne 5 6 (by decide)), h5e]
        have h7b1 : boardGet (boardSet (boardSet (boardSet (boardSet st.board
            ⟨fromSq.row, 5⟩ (some { rook with hasMoved := true })) ⟨fromSq.row, 7⟩ none)
            ⟨fromSq.row, 6⟩ (some { piece with hasMoved := true })) fromSq none)
            ⟨fromSq.row, 7⟩ = none := by
          rw [boardGet_castle, if_neg (Ne.symm (hfne 7 (by decide))),
            if_neg (hcne 7 6 (by decide)), if_pos rfl]
        have h5b1 : ∀ q, boardGet (boardSet (boardSet (boardSet (boardSet st.board
            ⟨fromSq.row, 5⟩ (some { rook with hasMoved := true })) ⟨fromSq.row, 7⟩ none)
            ⟨fromSq.row, 6⟩ (some { piece with hasMoved := true })) fromSq none)
            ⟨fromSq.row, 5⟩ = some q → q.color ≠ opponentOf st.currentPlayer := by
          intro q hq
          rw [boardGet_castle, if_neg (Ne.symm (hfne 5 (by decide))),
            if_neg (hcne 5 6 (by decide)), if_neg (hcne 5 7 (by decide)), if_pos rfl,
            if_pos htb5] at hq
          injection hq with e
          rw [← e]
          dsimp only []
          rw [hrc, hcol]
          exact fun h => opponentOf_ne st.currentPlayer h.symm
        have h6b1 : ∀ q, boardGet (boardSet (boardSet (boardSet (boardSet st.board
            ⟨fromSq.row, 5⟩ (some { rook with hasMoved := true })) ⟨fromSq.row, 7⟩ none)
            ⟨fromSq.row, 6⟩ (some { piece with hasMoved := true })) fromSq none)
            ⟨fromSq.row, 6⟩ = some q → q.color ≠ opponentOf st.currentPlayer := by
          intro q hq
          rw [boardGet_castle, if_neg (Ne.symm hne46), if_pos rfl, if_pos htb6] at hq
          injection hq with e
          rw [← e]
          dsimp only []
          rw [hcol]
          exact fun h => opponentOf_ne st.currentPlayer h.symm
        unfold isKingInCheck
        rw [hfind1]
        dsimp only []
        cases hval : isSquareUnderAttack (boardSet (boardSet (boardSet (boardSet st.board
            ⟨fromSq.row, 5⟩ (some { rook with hasMoved := true })) ⟨fromSq.row, 7⟩ none)
            ⟨fromSq.row, 6⟩ (some { piece with hasMoved := true })) fromSq none)
            ⟨fromSq.row, 6⟩ (opponentOf st.currentPlayer) with
        | false => rfl
        | true =>
          exfalso
          have htrans := attack_transfer_ks _ _ fromSq.row (opponentOf st.currentPlayer)
            hocc h5b2 h7b1 h5b1 h6b1 hval
          rw [hatt2] at htrans
          cases htrans
      · -- queenside
        subst htoeq
        have hrinit := hunm ⟨fromSq.row, 0⟩ rook hrk hrkm
        have hrc : rook.color = piece.color := by
          rcases hkpos with ⟨hfe, hpc⟩ | ⟨hfe, hpc⟩
          · rw [hfe] at hrinit
            dsimp only [] at hrinit
            have he := initialBoard_corner_70.symm.trans hrinit
            injection he with e
            rw [← e, hpc]
          · rw [hfe] at hrinit
            dsimp only [] at hrinit
            have he := initialBoard_corner_00.symm.trans hrinit
            injection he with e
            rw [← e, hpc]
        have htb2 : isInBounds (⟨fromSq.row, 2⟩ : ChessSquare) = true := by
          rcases hrb with h | h <;> rw [h] <;> decide
        have htb3 : isInBounds (⟨fromSq.row, 3⟩ : ChessSquare) = true := by
          rcases hrb with h | h <;> rw [h] <;> decide
        have hne42 : fromSq ≠ (⟨fromSq.row, 2⟩ : ChessSquare) := hfne 2 (by decide)
        have hbd := makeMove_board_castle_qs st fromSq ⟨fromSq.row, 2⟩ piece rook hov
          hcst.1 hfc rfl hrk
        rw [hbd]
        have hv5 : ∀ q : ChessPiece, some { rook with hasMoved := true } = some q →
            q.type ≠ PieceType.king := by
          intro q hq hqt
          injection hq with e
          rw [← e] at hqt
          dsimp only [] at hqt
          rw [hrkty] at hqt
          exact absurd hqt (by decide)
        have hfind1 := findKing_castle st.board st.currentPlayer ⟨fromSq.row, 3⟩
          ⟨fromSq.row, 0⟩ fromSq ⟨fromSq.row, 2⟩ (some { rook with hasMoved := true })
          { piece with hasMoved := true } hv5 hcst.1 hcol (Ne.symm hne42) htb2 huniq0
        have hfind2 := findKing_relocate st.board st.currentPlayer fromSq ⟨fromSq.row, 2⟩
          piece hcst.1 hcol hne42 htb2 huniq0
        have hatt2 : isSquareUnderAttack (boardSet (boardSet st.board ⟨fromSq.row, 2⟩
            (some piece)) fromSq none) ⟨fromSq.row, 2⟩
            (opponentOf st.currentPlayer) = false := by
          have h := hsim'
          unfold isKingInCheck at h
          rw [hfind2] at h
          dsimp only [] at h
          exact h
        have hocc : ∀ s, s ≠ (⟨fromSq.row, 3⟩ : ChessSquare) → s ≠ ⟨fromSq.row, 0⟩ →
            s ≠ ⟨fromSq.row, 2⟩ →
            boardGet (boardSet (boardSet (boardSet (boardSet st.board ⟨fromSq.row, 3⟩
              (some { rook with hasMoved := true })) ⟨fromSq.row, 0⟩ none) ⟨fromSq.row, 2⟩
              (some { piece with hasMoved := true })) fromSq none) s =
            boardGet (boardSet (boardSet st.board ⟨fromSq.row, 2⟩ (some piece))
              fromSq none) s := by
          intro s h3 h0 h2
          rw [boardGet_castle, boardGet_relocate]
          by_cases hf : s = fromSq
          · rw [if_pos hf, if_pos hf]
          · rw [if_neg hf, if_neg hf, if_neg h2, if_neg h2, if_neg h0, if_neg h3]
        have h3b2 : boardGet (boardSet (boardSet st.board ⟨fromSq.row, 2⟩ (some piece))
            fromSq none) ⟨fromSq.row, 3⟩ = none := by
          rw [boardGet_relocate, if_neg (Ne.symm (hfne 3 (by decide))),
            if_neg (hcne 3 2 (by decide)), h3e]
        have h0b1 : boardGet (boardSet (boardSet (boardSet (boardSet st.board
            ⟨fromSq.row, 3⟩ (some { rook with hasMoved := true })) ⟨fromSq.row, 0⟩ none)
            ⟨fromSq.row, 2⟩ (some { piece with hasMoved := true })) fromSq none)
            ⟨fromSq.row, 0⟩ = none := by
          rw [boardGet_castle, if_neg (Ne.symm (hfne 0 (by decide))),
            if_neg (hcne 0 2 (by decide)), if_pos rfl]
        have h3b1 : ∀ q, boardGet (boardSet (boardSet (boardSet (boardSet st.board
            ⟨fromSq.row, 3⟩ (some { rook with hasMoved := true })) ⟨fromSq.row, 0⟩ none)
            ⟨fromSq.row, 2⟩ (some { piece with hasMoved := true })) fromSq none)
            ⟨fromSq.row, 3⟩ = some q → q.color ≠ opponentOf st.currentPlayer := by
          intro q hq
          rw [boardGet_castle, if_neg (Ne.symm (hfne 3 (by decide))),
            if_neg (hcne 3 2 (by decide)), if_neg (hcne 3 0 (by decide)), if_pos rfl,
            if_pos htb3] at hq
          injection hq with e
          rw [← e]
          dsimp only []
          rw [hrc, hcol]
          exact fun h => opponentOf_ne st.currentPlayer h.symm
        have h2b1 : ∀ q, boardGet (boardSet (boardSet (boardSet (boardSet st.board
            ⟨fromSq.row, 3⟩ (some { rook with hasMoved := true })) ⟨fromSq.row, 0⟩ none)
            ⟨fromSq.row, 2⟩ (some { piece with hasMoved := true })) fromSq none)
            ⟨fromSq.row, 2⟩ = some q → q.color ≠ opponentOf st.currentPlayer := by
          intro q hq
          rw [boardGet_castle, if_neg (Ne.symm hne42), if_pos rfl, if_pos htb2] at hq
          injection hq with e
          rw [← e]
          dsimp only []
          rw [hcol]
          exact fun h => opponentOf_ne st.currentPlayer h.symm
        unfold isKingInCheck
        rw [hfind1]
        dsimp only []
        cases hval : isSquareUnderAttack (boardSet (boardSet (boardSet (boardSet st.board
            ⟨fromSq.row, 3⟩ (some { rook with hasMoved := true })) ⟨fromSq.row, 0⟩ none)
            ⟨fromSq.row, 2⟩ (some { piece with hasMoved := true })) fromSq none)
            ⟨fromSq.row, 2⟩ (opponentOf st.currentPlayer) with
        | false => rfl
        | true =>
          exfalso
          have htrans := attack_transfer_qs _ _ fromSq.row (opponentOf st.currentPlayer)
            hocc h3b2 h0b1 h3b1 h2b1 hval
          rw [hatt2] at htrans
          cases htrans
  · by_cases hepc : ∃ t, st.enPassantTarget = some t ∧ piece.type = PieceType.pawn ∧
        toSq.row = t.row ∧ toSq.col = t.col
    · obtain ⟨t, het, hpt, hr2, hc2⟩ := hepc
      obtain ⟨moved, hmc, hmk, hmm, hbd⟩ :=
        makeMove_board_ep st fromSq toSq piece t hov hcst het ⟨hpt, hr2, hc2⟩
      rw [hbd]
      have htto : toSq = t := by
        obtain ⟨tr, tc⟩ := t
        obtain ⟨br, bc⟩ := toSq
        simp only [ChessSquare.mk.injEq]
        exact ⟨hr2, hc2⟩
      by_cases hsame : toSq.col = fromSq.col
      · have hccsq : (⟨fromSq.row, toSq.col⟩ : ChessSquare) = fromSq := by
          rw [hsame]
        rw [hccsq]
        have hext : ∀ s, boardGet (boardSet (boardSet (boardSet st.board fromSq none) toSq
            (some moved)) fromSq none) s =
            boardGet (boardSet (boardSet st.board toSq (some moved)) fromSq none) s := by
          intro s
          rw [boardGet_relocate, boardGet_relocate]
          by_cases hf : s = fromSq
          · rw [if_pos hf, if_pos hf]
          · rw [if_neg hf, if_neg hf]
            by_cases hs : s = toSq
            · rw [if_pos hs, if_pos hs]
            · rw [if_neg hs, if_neg hs, boardGet_boardSet_ne _ _ _ _ hf]
        rw [isKingInCheck_ext _ _ _ hext,
          check_congr_relocate st.board st.currentPlayer fromSq toSq piece moved hcol hmc hmk]
        exact hsim'
      · -- the vacated square behind the target is already empty
        have hbempty : boardGet st.board t = none := by
          unfold epInv at hep
          rw [het] at hep
          rcases hep with ⟨_, _, _, _, _, he⟩ | ⟨_, _, _, _, _, he⟩ <;> exact he
        have hccempty : boardGet st.board ⟨fromSq.row, toSq.col⟩ = none := by
          rcases getPawnMoves_mem hov ((by
            rcases hdisp with ⟨hty, hp⟩ | ⟨hty, hp⟩ | ⟨hty, hp⟩ | ⟨hty, hp⟩ | ⟨hty, hp⟩ | ⟨hty, hp⟩
            · exact hp
            · rw [hty] at hpt; cases hpt
            · rw [hty] at hpt; cases hpt
            · rw [hty] at hpt; cases hpt
            · rw [hty] at hpt; cases hpt
            · rw [hty] at hpt; cases hpt) :
              toSq ∈ getPawnMoves st.board fromSq st.enPassantTarget) with
            hfw | hfw2 | hcap | hepb
          · exfalso
            apply hsame
            rw [hfw.1]
          · exfalso
            apply hsame
            rw [hfw2.1]
          · exfalso
            obtain ⟨_, _, q, hq, _⟩ := hcap
            rw [htto, hbempty] at hq
            cases hq
          · obtain ⟨t2, het2, _, _, hrow⟩ := hepb
            rw [het] at het2
            injection het2 with e2
            subst e2
            -- fromSq.row = t.row + direction; epInv pins the vacated row
            unfold epInv at hep
            rw [het] at hep
            rcases hep with ⟨hwcol, htr, _, _, hrow1, _⟩ | ⟨hwcol, htr, _, _, hrow6, _⟩
            · have hw : piece.color = PieceColor.white := by
                rw [hcol, hwcol]
              rw [hw] at hrow
              have hd1 : fromSq.row = t.row + -1 := by simpa using hrow
              have : fromSq.row = 1 := by omega
              have hsq : (⟨fromSq.row, toSq.col⟩ : ChessSquare) = ⟨1, t.col⟩ := by
                rw [this, hc2]
              rw [hsq]
              exact hrow1
            · have hbk : piece.color = PieceColor.black := by
                rw [hcol, hwcol]
              rw [hbk] at hrow
              have hd1 : fromSq.row = t.row + 1 := by simpa using hrow
              have : fromSq.row = 6 := by omega
              have hsq : (⟨fromSq.row, toSq.col⟩ : ChessSquare) = ⟨6, t.col⟩ := by
                rw [this, hc2]
              rw [hsq]
              exact hrow6
        have hext : ∀ s, boardGet (boardSet (boardSet (boardSet st.board
            ⟨fromSq.row, toSq.col⟩ none) toSq (some moved)) fromSq none) s =
            boardGet (boardSet (boardSet st.board toSq (some moved)) fromSq none) s := by
          intro s
          rw [boardGet_relocate, boardGet_relocate]
          by_cases hf : s = fromSq
          · rw [if_pos hf, if_pos hf]
          · rw [if_neg hf, if_neg hf]
            by_cases hs : s = toSq
            · rw [if_pos hs, if_pos hs]
            · rw [if_neg hs, if_neg hs, boardGet_boardSet]
              by_cases hcc : s = (⟨fromSq.row, toSq.col⟩ : ChessSquare)
              · rw [if_pos hcc]
                rw [hcc, hccempty]
                by_cases hb : isInBounds (⟨fromSq.row, toSq.col⟩ : ChessSquare) = true
                · rw [if_pos hb]
                · rw [if_neg hb]
              · rw [if_neg hcc]
        rw [isKingInCheck_ext _ _ _ hext,
          check_congr_relocate st.board st.currentPlayer fromSq toSq piece moved hcol hmc hmk]
        exact hsim'
    · have hne : ∀ t, st.enPassantTarget = some t →
          ¬(piece.type = PieceType.pawn ∧ toSq.row = t.row ∧ toSq.col = t.col) := by
        intro t het hcond
        exact hepc ⟨t, het, hcond⟩
      obtain ⟨moved, hmc, hmk, hmm, hbd⟩ :=
        makeMove_board_plain st fromSq toSq piece hov hcst hne
      rw [hbd,
        check_congr_relocate st.board st.currentPlayer fromSq toSq piece moved hcol hmc hmk]
      exact hsim'

/- ===== Stage I: the state invariant is established and preserved ===== -/

theorem isValidMoveAttempt_mem {b : Board} {f toSq : ChessSquare} {c : PieceColor}
    {ep : Option ChessSquare} {hist : List ChessMove}
    (h : isValidMoveAttempt b f toSq c ep hist = true) :
    toSq ∈ getValidMoves b f c ep hist := by
  unfold isValidMoveAttempt at h
  cases hov : boardGet b f with
  | none =>
    rw [hov] at h
    cases h
  | some piece =>
    rw [hov] at h
    dsimp only [] at h
    by_cases hc : piece.color ≠ c
    · rw [if_pos hc] at h
      cases h
    · rw [if_neg hc] at h
      rw [any_mem_coords] at h
      exact of_decide_eq_true h

theorem ChessInv_init : ChessInv initGameState := by
  refine ⟨⟨⟨7, 4⟩, ?_, ?_⟩, ⟨⟨0, 4⟩, ?_, ?_⟩, ?_, ?_, ?_⟩
  · decide
  · decide
  · decide
  · decide
  · exact trivial
  · decide
  · exact fun s p h _ => h

theorem makeMove_cellFacts (st : GameState) (fromSq toSq : ChessSquare)
    (piece : ChessPiece) (hInv : ChessInv st)
    (hov : boardGet st.board fromSq = some piece)
    (hmem : toSq ∈ getValidMoves st.board fromSq st.currentPlayer st.enPassantTarget
      st.moveHistory) :
    ∃ moved : ChessPiece, moved.color = piece.color ∧
      (moved.type = PieceType.king ↔ piece.type = PieceType.king) ∧
      moved.hasMoved = true ∧
      boardGet (makeMove st fromSq toSq).board fromSq = none ∧
      (toSq = fromSq ∨ boardGet (makeMove st fromSq toSq).board toSq = some moved) ∧
      (∀ s, s ≠ fromSq → s ≠ toSq →
        (boardGet (makeMove st fromSq toSq).board s = boardGet st.board s ∨
         (boardGet st.board s = none ∧
           ∃ r2, boardGet (makeMove st fromSq toSq).board s = some r2 ∧
             r2.type ≠ PieceType.king ∧ r2.color = piece.color ∧ r2.hasMoved = true) ∨
         (boardGet (makeMove st fromSq toSq).board s = none ∧
           ∀ q, boardGet st.board s = some q → q.type ≠ PieceType.king))) := by
  obtain ⟨piece2, hov2, hcol, hsim, hdisp⟩ := getValidMoves_mem hmem
  rw [hov] at hov2
  injection hov2 with epq
  subst epq
  obtain ⟨hkc, hko, hep, hsafe, hunm⟩ := hInv
  have hept : ∀ t, st.enPassantTarget = some t → boardGet st.board t = none := by
    intro t het
    have hep2 := hep
    unfold epInv at hep2
    rw [het] at hep2
    rcases hep2 with ⟨_, _, _, _, _, he⟩ | ⟨_, _, _, _, _, he⟩ <;> exact he
  by_cases hcst : piece.type = PieceType.king ∧ (toSq.col - fromSq.col).natAbs = 2
  · -- castling move
    have hkm : toSq ∈ getKingMoves st.board fromSq st.moveHistory := by
      rcases hdisp with ⟨hty, hp⟩ | ⟨hty, hp⟩ | ⟨hty, hp⟩ | ⟨hty, hp⟩ | ⟨hty, hp⟩ | ⟨hty, hp⟩
      · rw [hty] at hcst
        exact absurd hcst.1 (by decide)
      · rw [hty] at hcst
        exact absurd hcst.1 (by decide)
      · rw [hty] at hcst
        exact absurd hcst.1 (by decide)
      · rw [hty] at hcst
        exact absurd hcst.1 (by decide)
      · rw [hty] at hcst
        exact absurd hcst.1 (by decide)
      · exact hp
    obtain hnormal | ⟨hnm, hnchk, hcastle⟩ := getKingMoves_mem hov hkm
    · exfalso
      obtain ⟨off, hoff, htoeq2, hb2, hrest⟩ := hnormal
      have h2 := hcst.2
      rw [htoeq2] at h2
      fin_cases hoff <;> (dsimp only [] at h2; omega)
    · have hinit := hunm fromSq piece hov hnm
      have hkpos := initialBoard_king_pos fromSq piece hinit hcst.1
      have hfc : fromSq.col = 4 := by
        rcases hkpos with ⟨hfe, _⟩ | ⟨hfe, _⟩ <;> rw [hfe]
      have hrb : fromSq.row = 7 ∨ fromSq.row = 0 := by
        rcases hkpos with ⟨hfe, _⟩ | ⟨hfe, _⟩
        · left
          rw [hfe]
        · right
          rw [hfe]
      have hfne : ∀ j : Int, j ≠ (4 : Int) → fromSq ≠ ⟨fromSq.row, j⟩ := by
        intro j hj h
        apply hj
        have hc := congrArg ChessSquare.col h
        dsimp only [] at hc
        rw [hfc] at hc
        exact hc.symm
      rcases hcastle with ⟨htoeq, rook, hrk, hrkty, hrkm, h5e, h6e, h5a, h6a⟩ |
        ⟨htoeq, rook, hrk, hrkty, hrkm, h1e, h2e, h3e, h2a, h3a⟩
      · -- kingside
        subst htoeq
        have hrinit := hunm ⟨fromSq.row, 7⟩ rook hrk hrkm
        have hrc : rook.color = piece.color := by
          rcases hkpos with ⟨hfe, hpc⟩ | ⟨hfe, hpc⟩
          · rw [hfe] at hrinit
            dsimp only [] at hrinit
            have he := initialBoard_corner_77.symm.trans hrinit
            injection he with e
            rw [← e, hpc]
          · rw [hfe] at hrinit
            dsimp only [] at hrinit
            have he := initialBoard_corner_07.symm.trans hrinit
            injection he with e
            rw [← e, hpc]
        have htb6 : isInBounds (⟨fromSq.row, 6⟩ : ChessSquare) = true := by
          rcases hrb with h | h <;> rw [h] <;> decide
        have htb5 : isInBounds (⟨fromSq.row, 5⟩ : ChessSquare) = true := by
          rcases hrb with h | h <;> rw [h] <;> decide
        have hne46 : fromSq ≠ (⟨fromSq.row, 6⟩ : ChessSquare) := hfne 6 (by decide)
        have hbd := makeMove_board_castle_ks st fromSq ⟨fromSq.row, 6⟩ piece rook hov
          hcst.1 hfc rfl hrk
        refine ⟨{ piece with hasMoved := true }, rfl, Iff.rfl, rfl, ?_, ?_, ?_⟩
        · rw [hbd, boardGet_castle, if_pos rfl]
        · right
          rw [hbd, boardGet_castle, if_neg (Ne.symm hne46), if_pos rfl, if_pos htb6]
        · intro s hf ht
          by_cases h7 : s = ⟨fromSq.row, 7⟩
          · right
            right
            constructor
            · rw [hbd, boardGet_castle, if_neg hf, if_neg ht, if_pos h7]
            · intro q hq hqt
              rw [h7, hrk] at hq
              injection hq with e
              rw [← e] at hqt
              rw [hrkty] at hqt
              exact absurd hqt (by decide)
          · by_cases h5 : s = ⟨fromSq.row, 5⟩
            · right
              left
              refine ⟨by rw [h5]; exact h5e, { rook with hasMoved := true }, ?_, ?_, ?_, rfl⟩
              · rw [hbd, boardGet_castle, if_neg hf, if_neg ht, if_neg h7, if_pos h5,
                  if_pos (show isInBounds s = true by rw [h5]; exact htb5)]
              · intro hqt
                dsimp only [] at hqt
                rw [hrkty] at hqt
                exact absurd hqt (by decide)
              · dsimp only []
                exact hrc
            · left
              rw [hbd, boardGet_castle, if_neg hf, if_neg ht, if_neg h7, if_neg h5]
      · -- queenside
        subst htoeq
        have hrinit := hunm ⟨fromSq.row, 0⟩ rook hrk hrkm
        have hrc : rook.color = piece.color := by
          rcases hkpos with ⟨hfe, hpc⟩ | ⟨hfe, hpc⟩
          · rw [hfe] at hrinit
            dsimp only [] at hrinit
            have he := initialBoard_corner_70.symm.trans hrinit
            injection he with e
            rw [← e, hpc]
          · rw [hfe] at hrinit
            dsimp only [] at hrinit
            have he := initialBoard_corner_00.symm.trans hrinit
            injection he with e
            rw [← e, hpc]
        have htb2 : isInBounds (⟨fromSq.row, 2⟩ : ChessSquare) = true := by
          rcases hrb with h | h <;> rw [h] <;> decide
        have htb3 : isInBounds (⟨fromSq.row, 3⟩ : ChessSquare) = true := by
          rcases hrb with h | h <;> rw [h] <;> decide
        have hne42 : fromSq ≠ (⟨fromSq.row, 2⟩ : ChessSquare) := hfne 2 (by decide)
        have hbd := makeMove_board_castle_qs st fromSq ⟨fromSq.row, 2⟩ piece rook hov
          hcst.1 hfc rfl hrk
        refine ⟨{ piece with hasMoved := true }, rfl, Iff.rfl, rfl, ?_, ?_, ?_⟩
        · rw [hbd, boardGet_castle, if_pos rfl]
        · right
          rw [hbd, boardGet_castle, if_neg (Ne.symm hne42), if_pos rfl, if_pos htb2]
        · intro s hf ht
          by_cases h0 : s = ⟨fromSq.row, 0⟩
          · right
            right
            constructor
            · rw [hbd, boardGet_castle, if_neg hf, if_neg ht, if_pos h0]
            · intro q hq hqt
              rw [h0, hrk] at hq
              injection hq with e
              rw [← e] at hqt
              rw [hrkty] at hqt
              exact absurd hqt (by decide)
          · by_cases h3 : s = ⟨fromSq.row, 3⟩
            · right
              left
              refine ⟨by rw [h3]; exact h3e, { rook with hasMoved := true }, ?_, ?_, ?_, rfl⟩
              · rw [hbd, boardGet_castle, if_neg hf, if_neg ht, if_neg h0, if_pos h3,
                  if_pos (show isInBounds s = true by rw [h3]; exact htb3)]
              · intro hqt
                dsimp only [] at hqt
                rw [hrkty] at hqt
                exact absurd hqt (by decide)
              · dsimp only []
                exact hrc
            · left
              rw [hbd, boardGet_castle, if_neg hf, if_neg ht, if_neg h0, if_neg h3]
  · by_cases hepc : ∃ t, st.enPassantTarget = some t ∧ piece.type = PieceType.pawn ∧
        toSq.row = t.row ∧ toSq.col = t.col
    · -- en passant capture
      obtain ⟨t, het, hpt, hr2, hc2⟩ := hepc
      obtain ⟨moved, hmc, hmk, hmm, hbd⟩ :=
        makeMove_board_ep st fromSq toSq piece t hov hcst het ⟨hpt, hr2, hc2⟩
      have htto : toSq = t := by
        obtain ⟨tr, tc⟩ := t
        obtain ⟨br, bc⟩ := toSq
        simp only [ChessSquare.mk.injEq]
        exact ⟨hr2, hc2⟩
      have hempty_t : boardGet st.board t = none := hept t het
      have htb : isInBounds toSq = true := by
        have hep2 := hep
        unfold epInv at hep2
        rw [het] at hep2
        rw [isInBounds_iff, hr2, hc2]
        rcases hep2 with ⟨_, htr, hc0, hc8, _, _⟩ | ⟨_, htr, hc0, hc8, _, _⟩ <;> omega
      have htf : toSq ≠ fromSq := by
        intro h
        have h2 := hempty_t
        rw [htto] at h
        rw [h, hov] at h2
        cases h2
      refine ⟨moved, hmc, hmk, hmm, ?_, ?_, ?_⟩
      · rw [hbd, boardGet_boardSet, if_pos rfl, ite_self]
      · right
        rw [hbd, boardGet_boardSet, if_neg htf, boardGet_boardSet, if_pos rfl, if_pos htb]
      · intro s hf ht
        by_cases hcc : s = ⟨fromSq.row, toSq.col⟩
        · right
          right
          have hccne : toSq.col ≠ fromSq.col := by
            intro hcol2
            apply hf
            rw [hcc, hcol2]
          constructor
          · rw [hbd, boardGet_boardSet, if_neg hf, boardGet_boardSet, if_neg ht,
              boardGet_boardSet, if_pos hcc, ite_self]
          · have hccempty : boardGet st.board ⟨fromSq.row, toSq.col⟩ = none := by
              rcases getPawnMoves_mem hov ((by
                rcases hdisp with ⟨hty2, hp⟩ | ⟨hty2, hp⟩ | ⟨hty2, hp⟩ | ⟨hty2, hp⟩ |
                  ⟨hty2, hp⟩ | ⟨hty2, hp⟩
                · exact hp
                · rw [hty2] at hpt; cases hpt
                · rw [hty2] at hpt; cases hpt
                · rw [hty2] at hpt; cases hpt
                · rw [hty2] at hpt; cases hpt
                · rw [hty2] at hpt; cases hpt) :
                  toSq ∈ getPawnMoves st.board fromSq st.enPassantTarget) with
                hfw | hfw2 | hcap | hepb
              · exfalso
                apply hccne
                rw [hfw.1]
              · exfalso
                apply hccne
                rw [hfw2.1]
              · exfalso
                obtain ⟨_, _, q, hq, _⟩ := hcap
                rw [htto, hempty_t] at hq
                cases hq
              · obtain ⟨t2, het2, _, _, hrow⟩ := hepb
                rw [het] at het2
                injection het2 with e2
                subst e2
                have hep3 := hep
                unfold epInv at hep3
                rw [het] at hep3
                rcases hep3 with ⟨hwcol, htr, _, _, hrow1, _⟩ | ⟨hwcol, htr, _, _, hrow6, _⟩
                · have hw : piece.color = PieceColor.white := by
                    rw [hcol, hwcol]
                  rw [hw] at hrow
                  have hd1 : fromSq.row = t.row + -1 := by simpa using hrow
                  have : fromSq.row = 1 := by omega
                  have hsq : (⟨fromSq.row, toSq.col⟩ : ChessSquare) = ⟨1, t.col⟩ := by
                    rw [this, hc2]
                  rw [hsq]
                  exact hrow1
                · have hbk : piece.color = PieceColor.black := by
                    rw [hcol, hwcol]
                  rw [hbk] at hrow
                  have hd1 : fromSq.row = t.row + 1 := by simpa using hrow
                  have : fromSq.row = 6 := by omega
                  have hsq : (⟨fromSq.row, toSq.col⟩ : ChessSquare) = ⟨6, t.col⟩ := by
                    rw [this, hc2]
                  rw [hsq]
                  exact hrow6
            intro q hq
            rw [hcc, hccempty] at hq
            cases hq
        · left
          rw [hbd, boardGet_boardSet, if_neg hf, boardGet_boardSet, if_neg ht,
            boardGet_boardSet, if_neg hcc]
    · -- ordinary relocation
      have hne : ∀ t, st.enPassantTarget = some t →
          ¬(piece.type = PieceType.pawn ∧ toSq.row = t.row ∧ toSq.col = t.col) := by
        intro t het hcond
        exact hepc ⟨t, het, hcond⟩
      obtain ⟨moved, hmc, hmk, hmm, hbd⟩ :=
        makeMove_board_plain st fromSq toSq piece hov hcst hne
      refine ⟨moved, hmc, hmk, hmm, ?_, ?_, ?_⟩
      · rw [hbd, boardGet_relocate, if_pos rfl]
      · by_cases htf : toSq = fromSq
        · exact Or.inl htf
        · right
          have htb : isInBounds toSq = true := by
            rcases hdisp with ⟨hty, hp⟩ | ⟨hty, hp⟩ | ⟨hty, hp⟩ | ⟨hty, hp⟩ | ⟨hty, hp⟩ |
              ⟨hty, hp⟩
            · rcases getPawnMoves_mem hov hp with h1 | h2 | h3 | h4
              · exact h1.2.1
              · exact h2.2.2.1
              · exact h3.2.1
              · exfalso
                obtain ⟨t, het, hte2, hcd, hrow⟩ := h4
                exact hepc ⟨t, het, hty, by rw [hte2], by rw [hte2]⟩
            · obtain ⟨dir, hdir, k, hk1, hteq, htbb, hrest⟩ := getRookMoves_mem hov hp
              exact htbb
            · obtain ⟨off, hoff, hteq, htbb, hrest⟩ := getKnightMoves_mem hov hp
              exact htbb
            · obtain ⟨dir, hdir, k, hk1, hteq, htbb, hrest⟩ := getBishopMoves_mem hov hp
              exact htbb
            · obtain ⟨dir, hdir, k, hk1, hteq, htbb, hrest⟩ := getQueenMoves_mem hov hp
              exact htbb
            · rcases getKingMoves_mem hov hp with ⟨off, hoff, hteq, htbb, hrest⟩ |
                ⟨hnm, hnchk, hcs | hcs⟩
              · exact htbb
              · exfalso
                have hinit := hunm fromSq piece hov hnm
                have hkpos := initialBoard_king_pos fromSq piece hinit hty
                have hfc : fromSq.col = 4 := by
                  rcases hkpos with ⟨hfe, _⟩ | ⟨hfe, _⟩ <;> rw [hfe]
                apply hcst
                refine ⟨hty, ?_⟩
                rw [hcs.1, hfc]
                dsimp only []
                decide
              · exfalso
                have hinit := hunm fromSq piece hov hnm
                have hkpos := initialBoard_king_pos fromSq piece hinit hty
                have hfc : fromSq.col = 4 := by
                  rcases hkpos with ⟨hfe, _⟩ | ⟨hfe, _⟩ <;> rw [hfe]
                apply hcst
                refine ⟨hty, ?_⟩
                rw [hcs.1, hfc]
                dsimp only []
                decide
          rw [hbd, boardGet_relocate, if_neg htf, if_pos rfl, if_pos htb]
      · intro s hf ht
        left
        rw [hbd, boardGet_relocate, if_neg hf, if_neg ht]

theorem ChessInv_makeMove (st : GameState) (fromSq toSq : ChessSquare)
    (hInv : ChessInv st)
    (hmem : toSq ∈ getValidMoves st.board fromSq st.currentPlayer st.enPassantTarget
      st.moveHistory) :
    ChessInv (makeMove st fromSq toSq) := by
  have hnoself := makeMove_no_self_check st fromSq toSq hInv hmem
  obtain ⟨piece0, hov, hcol, hsim, hdisp⟩ := getValidMoves_mem hmem
  obtain ⟨moved, hmc, hmk, hmm, hP1, hP2, hP3⟩ :=
    makeMove_cellFacts st fromSq toSq piece0 hInv hov hmem
  obtain ⟨hkc, hko, hep, hsafe, hunm⟩ := hInv
  have hept : ∀ t, st.enPassantTarget = some t → boardGet st.board t = none := by
    intro t het
    have hep2 := hep
    unfold epInv at hep2
    rw [het] at hep2
    rcases hep2 with ⟨_, _, _, _, _, he⟩ | ⟨_, _, _, _, _, he⟩ <;> exact he
  have hdest : boardGet st.board toSq = none ∨
      ∃ q, boardGet st.board toSq = some q ∧ q.color ≠ piece0.color := by
    rcases hdisp with ⟨hty, hp⟩ | ⟨hty, hp⟩ | ⟨hty, hp⟩ | ⟨hty, hp⟩ | ⟨hty, hp⟩ | ⟨hty, hp⟩
    · rcases getPawnMoves_mem hov hp with h1 | h2 | h3 | h4
      · exact Or.inl h1.2.2
      · exact Or.inl h2.2.2.2.2
      · exact Or.inr h3.2.2
      · obtain ⟨t, het, hte2, _, _⟩ := h4
        left
        rw [hte2]
        exact hept t het
    · obtain ⟨dir, hdir, k, hk1, hteq, htbb, hblk, hdst⟩ := getRookMoves_mem hov hp
      exact hdst
    · obtain ⟨off, hoff, hteq, htbb, hdst⟩ := getKnightMoves_mem hov hp
      exact hdst
    · obtain ⟨dir, hdir, k, hk1, hteq, htbb, hblk, hdst⟩ := getBishopMoves_mem hov hp
      exact hdst
    · obtain ⟨dir, hdir, k, hk1, hteq, htbb, hblk, hdst⟩ := getQueenMoves_mem hov hp
      exact hdst
    · rcases getKingMoves_mem hov hp with ⟨off, hoff, hteq, htbb, hdst⟩ |
        ⟨hnm, hnchk, hcs | hcs⟩
      · exact hdst
      · obtain ⟨hte2, rook, hg1, hg2, hg3, hg4, h6e, hg5, hg6⟩ := hcs
        left
        rw [hte2]
        exact h6e
      · obtain ⟨hte2, rook, hg1, hg2, hg3, hg4, h2e, hg5, hg6, hg7⟩ := hcs
        left
        rw [hte2]
        exact h2e
  have hf2 := makeMove_fields st fromSq toSq piece0 hov
  obtain ⟨ko, hko1, hko2⟩ := hko
  obtain ⟨kp, hkp, hkpt, hkpc⟩ := isKingCell_eq_true.mp hko1
  have hkoF : ko ≠ fromSq := by
    intro h
    rw [h, hov] at hkp
    injection hkp with e
    rw [← e] at hkpc
    rw [hcol] at hkpc
    exact opponentOf_ne st.currentPlayer hkpc.symm
  have hkoT : ko ≠ toSq := by
    intro h
    rcases hdest with hde | ⟨q, hq, hqc⟩
    · rw [← h, hkp] at hde
      cases hde
    · have hatt := capture_attack hmem hq hept
      have hfko : findKing st.board (opponentOf st.currentPlayer) = some ko := by
        unfold findKing
        exact find?_eq_some_of_unique (boardGet_mem_allSquares hkp) hko1 hko2
      have hchk : isKingInCheck st.board (opponentOf st.currentPlayer) = true := by
        unfold isKingInCheck
        rw [hfko]
        dsimp only []
        rw [isSquareUnderAttack_iff]
        refine ⟨fromSq, boardGet_mem_allSquares hov, piece0, hov, ?_, ?_⟩
        · rw [hcol, opponentOf_opponentOf]
        · rw [h]
          exact hatt
      rw [hsafe] at hchk
      cases hchk
  refine ⟨?_, ?_, ?_, ?_, ?_⟩
  · -- the new current player (the old opponent) still has a unique king
    rw [hf2.1]
    refine ⟨ko, ?_, ?_⟩
    · have hcell : boardGet (makeMove st fromSq toSq).board ko = boardGet st.board ko := by
        rcases hP3 ko hkoF hkoT with h1 | ⟨hn, _⟩ | ⟨_, hall⟩
        · exact h1
        · rw [hn] at hkp
          cases hkp
        · exact absurd hkpt (hall kp hkp)
      rw [isKingCell_eq_true]
      exact ⟨kp, hcell.trans hkp, hkpt, hkpc⟩
    · intro s hs hcell2
      obtain ⟨p2, hp2, hpt2, hpc2⟩ := isKingCell_eq_true.mp hcell2
      by_cases hsf : s = fromSq
      · rw [hsf, hP1] at hp2
        cases hp2
      · by_cases hst2 : s = toSq
        · rcases hP2 with he | hbt
          · exact absurd (hst2.trans he) hsf
          · exfalso
            rw [hst2, hbt] at hp2
            injection hp2 with e2
            rw [← e2] at hpc2
            rw [hmc, hcol] at hpc2
            exact opponentOf_ne st.currentPlayer hpc2.symm
        · rcases hP3 s hsf hst2 with h1 | ⟨_, r2, hr2b, hrt2, _, _⟩ | ⟨hn, _⟩
          · exact hko2 s hs (isKingCell_eq_true.mpr ⟨p2, h1.symm.trans hp2, hpt2, hpc2⟩)
          · exfalso
            rw [hr2b] at hp2
            injection hp2 with e2
            rw [← e2] at hpt2
            exact absurd hpt2 hrt2
          · exfalso
            rw [hn] at hp2
            cases hp2
  · -- the mover still has a unique king
    rw [hf2.1, opponentOf_opponentOf]
    obtain ⟨kc, hkc1, hkc2⟩ := hkc
    obtain ⟨cp, hcp2, hcpt, hcpc⟩ := isKingCell_eq_true.mp hkc1
    by_cases hkg : piece0.type = PieceType.king
    · have hkcF : kc = fromSq := (hkc2 fromSq (boardGet_mem_allSquares hov)
        (isKingCell_eq_true.mpr ⟨piece0, hov, hkg, hcol⟩)).symm
      have htf : toSq ≠ fromSq := by
        rcases hdisp with ⟨hty, hp⟩ | ⟨hty, hp⟩ | ⟨hty, hp⟩ | ⟨hty, hp⟩ | ⟨hty, hp⟩ |
          ⟨hty, hp⟩
        · rw [hty] at hkg
          exact absurd hkg (by decide)
        · rw [hty] at hkg
          exact absurd hkg (by decide)
        · rw [hty] at hkg
          exact absurd hkg (by decide)
        · rw [hty] at hkg
          exact absurd hkg (by decide)
        · rw [hty] at hkg
          exact absurd hkg (by decide)
        · rcases getKingMoves_mem hov hp with ⟨off, hoff, hteq, htbb, hdst⟩ |
            ⟨hnm, hnchk, hcs | hcs⟩
          · intro h
            rw [hteq] at h
            have e1 := congrArg ChessSquare.row h
            have e2 := congrArg ChessSquare.col h
            dsimp only [] at e1 e2
            fin_cases hoff <;> (dsimp only [] at e1 e2; omega)
          · have hinit := hunm fromSq piece0 hov hnm
            have hkpos := initialBoard_king_pos fromSq piece0 hinit hkg
            have hfc : fromSq.col = 4 := by
              rcases hkpos with ⟨hfe, _⟩ | ⟨hfe, _⟩ <;> rw [hfe]
            intro h
            have e2 := congrArg ChessSquare.col h
            rw [hcs.1] at e2
            dsimp only [] at e2
            rw [hfc] at e2
            exact absurd e2 (by decide)
          · have hinit := hunm fromSq piece0 hov hnm
            have hkpos := initialBoard_king_pos fromSq piece0 hinit hkg
            have hfc : fromSq.col = 4 := by
              rcases hkpos with ⟨hfe, _⟩ | ⟨hfe, _⟩ <;> rw [hfe]
            intro h
            have e2 := congrArg ChessSquare.col h
            rw [hcs.1] at e2
            dsimp only [] at e2
            rw [hfc] at e2
            exact absurd e2 (by decide)
      rcases hP2 with he | hbt
      · exact absurd he htf
      refine ⟨toSq, ?_, ?_⟩
      · rw [isKingCell_eq_true]
        refine ⟨moved, hbt, hmk.mpr hkg, ?_⟩
        rw [hmc]
        exact hcol
      · intro s hs hcell2
        obtain ⟨p2, hp2, hpt2, hpc2⟩ := isKingCell_eq_true.mp hcell2
        by_cases hsf : s = fromSq
        · rw [hsf, hP1] at hp2
          cases hp2
        · by_cases hst2 : s = toSq
          · exact hst2
          · rcases hP3 s hsf hst2 with h1 | ⟨_, r2, hr2b, hrt2, _, _⟩ | ⟨hn, _⟩
            · exfalso
              apply hsf
              rw [← hkcF]
              exact hkc2 s hs (isKingCell_eq_true.mpr ⟨p2, h1.symm.trans hp2, hpt2, hpc2⟩)
            · exfalso
              rw [hr2b] at hp2
              injection hp2 with e2
              rw [← e2] at hpt2
              exact absurd hpt2 hrt2
            · exfalso
              rw [hn] at hp2
              cases hp2
    · have hkcF : kc ≠ fromSq := by
        intro h
        rw [h, hov] at hcp2
        injection hcp2 with e2
        rw [← e2] at hcpt
        exact hkg hcpt
      have hkcT : kc ≠ toSq := by
        intro h
        rcases hdest with hde | ⟨q, hq, hqc⟩
        · rw [← h, hcp2] at hde
          cases hde
        · rw [← h, hcp2] at hq
          injection hq with e2
          apply hqc
          rw [← e2, hcpc, hcol]
      refine ⟨kc, ?_, ?_⟩
      · have hcell : boardGet (makeMove st fromSq toSq).board kc = boardGet st.board kc := by
          rcases hP3 kc hkcF hkcT with h1 | ⟨hn, _⟩ | ⟨_, hall⟩
          · exact h1
          · rw [hn] at hcp2
            cases hcp2
          · exact absurd hcpt (hall cp hcp2)
        rw [isKingCell_eq_true]
        exact ⟨cp, hcell.trans hcp2, hcpt, hcpc⟩
      · intro s hs hcell2
        obtain ⟨p2, hp2, hpt2, hpc2⟩ := isKingCell_eq_true.mp hcell2
        by_cases hsf : s = fromSq
        · rw [hsf, hP1] at hp2
          cases hp2
        · by_cases hst2 : s = toSq
          · exfalso
            rcases hP2 with he | hbt
            · exact hsf (hst2.trans he)
            · rw [hst2, hbt] at hp2
              injection hp2 with e2
              rw [← e2] at hpt2
              exact hkg (hmk.mp hpt2)
          · rcases hP3 s hsf hst2 with h1 | ⟨_, r2, hr2b, hrt2, _, _⟩ | ⟨hn, _⟩
            · exact hkc2 s hs (isKingCell_eq_true.mpr ⟨p2, h1.symm.trans hp2, hpt2, hpc2⟩)
            · exfalso
              rw [hr2b] at hp2
              injection hp2 with e2
              rw [← e2] at hpt2
              exact absurd hpt2 hrt2
            · exfalso
              rw [hn] at hp2
              cases hp2
  · -- the en passant bookkeeping stays consistent
    unfold epInv
    rw [hf2.1, hf2.2]
    by_cases hdd : piece0.type = PieceType.pawn ∧ (toSq.row - fromSq.row).natAbs = 2
    · rw [if_pos hdd]
      dsimp only []
      have hpmem : toSq ∈ getPawnMoves st.board fromSq st.enPassantTarget := by
        rcases hdisp with ⟨hty, hp⟩ | ⟨hty, hp⟩ | ⟨hty, hp⟩ | ⟨hty, hp⟩ | ⟨hty, hp⟩ |
          ⟨hty, hp⟩
        · exact hp
        · rw [hty] at hdd
          exact absurd hdd.1 (by decide)
        · rw [hty] at hdd
          exact absurd hdd.1 (by decide)
        · rw [hty] at hdd
          exact absurd hdd.1 (by decide)
        · rw [hty] at hdd
          exact absurd hdd.1 (by decide)
        · rw [hty] at hdd
          exact absurd hdd.1 (by decide)
      rcases getPawnMoves_mem hov hpmem with h1 | h2 | h3 | h4
      · exfalso
        have hr := hdd.2
        rw [h1.1] at hr
        dsimp only [] at hr
        by_cases hw : piece0.color = PieceColor.white
        · rw [if_pos hw] at hr
          omega
        · rw [if_neg hw] at hr
          omega
      · -- the double step itself
        obtain ⟨hte2, hsr, htbb, hof, hts⟩ := h2
        have hnc2 : ¬(piece0.type = PieceType.king ∧ (toSq.col - fromSq.col).natAbs = 2) := by
          rintro ⟨hk2, _⟩
          rw [hdd.1] at hk2
          cases hk2
        have hne2 : ∀ t, st.enPassantTarget = some t →
            ¬(piece0.type = PieceType.pawn ∧ toSq.row = t.row ∧ toSq.col = t.col) := by
          intro t het hcond
          obtain ⟨_, hr2, _⟩ := hcond
          have hep2 := hep
          unfold epInv at hep2
          rw [het] at hep2
          rw [hte2] at hr2
          dsimp only [] at hr2
          rcases hep2 with ⟨hwc, htr, _, _, _, _⟩ | ⟨hwc, htr, _, _, _, _⟩
          · have hw : piece0.color = PieceColor.white := by
              rw [hcol, hwc]
            rw [if_pos hw] at hr2
            rw [if_pos hw] at hsr
            omega
          · have hb2 : piece0.color = PieceColor.black := by
              rw [hcol, hwc]
            have hw : ¬piece0.color = PieceColor.white := by
              rw [hb2]
              decide
            rw [if_neg hw] at hr2
            rw [if_neg hw] at hsr
            omega
        obtain ⟨moved2, hmc2, hmk2, hmm2, hbd2⟩ :=
          makeMove_board_plain st fromSq toSq piece0 hov hnc2 hne2
        have hfb := (isInBounds_iff fromSq).mp (boardGet_inBounds hov)
        by_cases hw : piece0.color = PieceColor.white
        · right
          have hw2 : st.currentPlayer = PieceColor.white := by
            rw [← hcol, hw]
          have hsr6 : fromSq.row = 6 := by
            rw [if_pos hw] at hsr
            exact hsr
          have htr4 : toSq.row = 4 := by
            rw [hte2]
            dsimp only []
            rw [if_pos hw]
            omega
          refine ⟨?_, ?_, ?_, ?_, ?_, ?_⟩
          · rw [hw2]
            decide
          · rw [hsr6, htr4]
            decide
          · omega
          · omega
          · have hfe2 : (⟨(6 : Int), fromSq.col⟩ : ChessSquare) = fromSq := by
              rw [← hsr6]
            rw [hfe2, hbd2, boardGet_relocate, if_pos rfl]
          · have hm1 : (⟨fromSq.row + -1, fromSq.col⟩ : ChessSquare) ≠ fromSq := by
              intro h
              have := congrArg ChessSquare.row h
              dsimp only [] at this
              omega
            have hm2 : (⟨fromSq.row + -1, fromSq.col⟩ : ChessSquare) ≠ toSq := by
              intro h
              have := congrArg ChessSquare.row h
              dsimp only [] at this
              omega
            have hmide : (⟨(fromSq.row + toSq.row) / 2, fromSq.col⟩ : ChessSquare) =
                ⟨fromSq.row + -1, fromSq.col⟩ := by
              have he3 : (fromSq.row + toSq.row) / 2 = fromSq.row + -1 := by omega
              rw [he3]
            rw [hmide, hbd2, boardGet_relocate, if_neg hm1, if_neg hm2]
            rw [if_pos hw] at hof
            exact hof
        · left
          have hb2 : piece0.color = PieceColor.black := by
            cases hcb : piece0.color
            · exact absurd hcb hw
            · rfl
          have hw2 : st.currentPlayer = PieceColor.black := by
            rw [← hcol, hb2]
          have hsr1 : fromSq.row = 1 := by
            rw [if_neg hw] at hsr
            exact hsr
          have htr3 : toSq.row = 3 := by
            rw [hte2]
            dsimp only []
            rw [if_neg hw]
            omega
          refine ⟨?_, ?_, ?_, ?_, ?_, ?_⟩
          · rw [hw2]
            decide
          · rw [hsr1, htr3]
            decide
          · omega
          · omega
          · have hfe2 : (⟨(1 : Int), fromSq.col⟩ : ChessSquare) = fromSq := by
              rw [← hsr1]
            rw [hfe2, hbd2, boardGet_relocate, if_pos rfl]
          · have hm1 : (⟨fromSq.row + 1, fromSq.col⟩ : ChessSquare) ≠ fromSq := by
              intro h
              have := congrArg ChessSquare.row h
              dsimp only [] at this
              omega
            have hm2 : (⟨fromSq.row + 1, fromSq.col⟩ : ChessSquare) ≠ toSq := by
              intro h
              have := congrArg ChessSquare.row h
              dsimp only [] at this
              omega
            have hmide : (⟨(fromSq.row + toSq.row) / 2, fromSq.col⟩ : ChessSquare) =
                ⟨fromSq.row + 1, fromSq.col⟩ := by
              have he3 : (fromSq.row + toSq.row) / 2 = fromSq.row + 1 := by omega
              rw [he3]
            rw [hmide, hbd2, boardGet_relocate, if_neg hm1, if_neg hm2]
            rw [if_neg hw] at hof
            exact hof
      · exfalso
        obtain ⟨he2, _, _⟩ := h3
        have hr := hdd.2
        rcases he2 with he | he <;> rw [he] at hr <;> dsimp only [] at hr
        · by_cases hw : piece0.color = PieceColor.white
          · rw [if_pos hw] at hr
            omega
          · rw [if_neg hw] at hr
            omega
        · by_cases hw : piece0.color = PieceColor.white
          · rw [if_pos hw] at hr
            omega
          · rw [if_neg hw] at hr
            omega
      · exfalso
        obtain ⟨t, het, hte2, hcd, hrow⟩ := h4
        have hr := hdd.2
        rw [hte2] at hr
        dsimp only [] at hr
        by_cases hw : piece0.color = PieceColor.white
        · rw [if_pos hw] at hrow
          omega
        · rw [if_neg hw] at hrow
          omega
    · rw [if_neg hdd]
      exact trivial
  · -- the mover's king is safe after the move
    rw [hf2.1, opponentOf_opponentOf]
    exact hnoself
  · -- unmoved pieces still sit on their initial squares
    intro s p2 hp2 hpm
    by_cases hsf : s = fromSq
    · rw [hsf, hP1] at hp2
      cases hp2
    · by_cases hst2 : s = toSq
      · exfalso
        rcases hP2 with he | hbt
        · exact hsf (hst2.trans he)
        · rw [hst2, hbt] at hp2
          injection hp2 with e2
          rw [← e2] at hpm
          rw [hmm] at hpm
          cases hpm
      · rcases hP3 s hsf hst2 with h1 | ⟨_, r2, hr2b, _, _, hrm2⟩ | ⟨hn, _⟩
        · exact hunm s p2 (h1.symm.trans hp2) hpm
        · exfalso
          rw [hr2b] at hp2
          injection hp2 with e2
          rw [← e2] at hpm
          rw [hrm2] at hpm
          cases hpm
        · exfalso
          rw [hn] at hp2
          cases hp2

theorem Reachable_inv (st : GameState) (h : Reachable st) : ChessInv st := by
  induction h with
  | base => exact ChessInv_init
  | @step st2 fromSq toSq hr hv ih =>
    unfold handlePieceMove
    rw [if_pos hv]
    exact ChessInv_makeMove st2 fromSq toSq ih (isValidMoveAttempt_mem hv)

/-- C2: in every reachable game state, every destination square the legal-move
generator returns for the side to move is safe to play: applying it through
`makeMove` — including the castling rook relocation and the en passant pawn
removal side effects, which the minimal simulation used for filtering does not
perform — yields a board on which the mover's own king is not in check. -/
theorem legal_moves_never_self_check (st : GameState) (h : Reachable st)
    (fromSq toSq : ChessSquare)
    (hmem : toSq ∈ getValidMoves st.board fromSq st.currentPlayer st.enPassantTarget
      st.moveHistory) :
    isKingInCheck (makeMove st fromSq toSq).board st.currentPlayer = false :=
  makeMove_no_self_check st fromSq toSq (Reachable_inv st h) hmem

/-- Witness for C2: the initial position is reachable, e2-e4 is among the
generated moves for white's e-pawn, and playing it leaves white's king safe. -/
theorem legal_moves_never_self_check_witness :
    Reachable initGameState ∧
    (⟨4, 4⟩ : ChessSquare) ∈ getValidMoves initGameState.board ⟨6, 4⟩
      initGameState.currentPlayer initGameState.enPassantTarget
      initGameState.moveHistory ∧
    isKingInCheck (makeMove initGameState ⟨6, 4⟩ ⟨4, 4⟩).board
      initGameState.currentPlayer = false :=
  ⟨Reachable.base, by decide,
    legal_moves_never_self_check initGameState Reachable.base ⟨6, 4⟩ ⟨4, 4⟩ (by decide)⟩
